import Mathlib

/-!
Shallow embedding of the glchemdraw-app conversion-and-delivery pipeline:
the length-prefixed JSON message channel, the markup-to-binary conversion
chain with its provider fallback, the clipboard delivery block, and the
HTTP request handler.  Python strings are modelled as Lean `String`
(sequences of Unicode scalar values; lone surrogates, which CPython
strings can carry, are outside the model and noted where relevant),
bytes as `List Nat` with each entry < 256, and the stdlib collaborators
(`json`, `struct`, `base64`, `utf-8` codecs) are embedded to the depth
the program exercises them.
-/

set_option maxRecDepth 4000

namespace Glc

/-! ### Characters and small lexical helpers -/

/-- The character `\x7b` (opening curly brace). -/
def lbrace : Char := Char.ofNat 123

/-- The character `\x7d` (closing curly brace). -/
def rbrace : Char := Char.ofNat 125

/-- ASCII decimal digit test, as Python's json number scanner uses it. -/
def isDigitCh (c : Char) : Bool := 48 ≤ c.toNat && c.toNat ≤ 57

/-- JSON insignificant whitespace (space, tab, newline, carriage return). -/
def isJsonWs (c : Char) : Bool := c = ' ' || c = Char.ofNat 9 || c = Char.ofNat 10 || c = Char.ofNat 13

/-- Characters removed from both ends by Python's `str.strip()` (ASCII range;
the program only ever strips markup text, for which this is the relevant set). -/
def isPySpace (c : Char) : Bool :=
  c = ' ' || c = Char.ofNat 9 || c = Char.ofNat 10 || c = Char.ofNat 13
    || c = Char.ofNat 11 || c = Char.ofNat 12

/-- Drop JSON whitespace from the front of a character list. -/
def skipJsonWs : List Char → List Char
  | c :: cs => if isJsonWs c then skipJsonWs cs else c :: cs
  | [] => []

/-- `str.strip()` on the underlying character list. -/
def stripList (s : List Char) : List Char :=
  ((s.dropWhile isPySpace).reverse.dropWhile isPySpace).reverse

/-- Python `str.strip()`. -/
def pyStrip (s : String) : String := String.mk (stripList s.data)

/-! ### Decimal digits (Python `repr` of a nonnegative int, and the scanner
reading them back).  Fuel-structural so the kernel can evaluate it. -/

/-- The digit character for `d` (`0`–`9` for `d < 10`). -/
def digitCh (d : Nat) : Char := Char.ofNat (48 + d)

/-- Decimal digit characters of `n`, most significant first; `fuel` bounds the
recursion and any `fuel > n` is enough. -/
def natCharsAux : Nat → Nat → List Char
  | 0, _ => []
  | fuel + 1, n =>
      if n < 10 then [digitCh n]
      else natCharsAux fuel (n / 10) ++ [digitCh (n % 10)]

/-- Decimal digit characters of `n`, exactly Python's `repr` for `n ≥ 0`. -/
def natChars (n : Nat) : List Char := natCharsAux (n + 1) n

/-- Python `repr` of an int: optional minus sign, then decimal digits. -/
def intChars (i : Int) : List Char :=
  (if i < 0 then ['-'] else []) ++ natChars i.natAbs

/-- Take the maximal leading run of decimal digits. -/
def takeDigits : List Char → List Char × List Char
  | c :: cs =>
      if isDigitCh c then
        let p := takeDigits cs
        (c :: p.1, p.2)
      else ([], c :: cs)
  | [] => ([], [])

/-- Evaluate a digit run, most significant first. -/
def digitsVal (ds : List Char) : Nat :=
  ds.foldl (fun a c => a * 10 + (c.toNat - 48)) 0

/-! ### Hexadecimal, for `\uXXXX` escapes -/

/-- Lowercase hex digit for `d < 16`, as CPython's json encoder emits. -/
def hexCh (d : Nat) : Char :=
  if d < 10 then Char.ofNat (48 + d) else Char.ofNat (97 + (d - 10))

/-- The four hex digits of `n < 0x10000`, most significant first. -/
def hex4Chars (n : Nat) : List Char :=
  [hexCh (n / 4096 % 16), hexCh (n / 256 % 16), hexCh (n / 16 % 16), hexCh (n % 16)]

/-- Value of one hex digit character (either case), as the json scanner reads it. -/
def hexChVal (c : Char) : Option Nat :=
  if 48 ≤ c.toNat ∧ c.toNat ≤ 57 then some (c.toNat - 48)
  else if 97 ≤ c.toNat ∧ c.toNat ≤ 102 then some (c.toNat - 97 + 10)
  else if 65 ≤ c.toNat ∧ c.toNat ≤ 70 then some (c.toNat - 65 + 10)
  else none

/-- Value of a four-hex-digit group. -/
def hex4Val (a b c d : Char) : Option Nat := do
  let va ← hexChVal a
  let vb ← hexChVal b
  let vc ← hexChVal c
  let vd ← hexChVal d
  return ((va * 16 + vb) * 16 + vc) * 16 + vd

/-! ### The JSON value model

The values `json.dumps` serializes and `json.loads` produces in this program:
null, booleans, ints, strings, arrays, objects with string keys in insertion
order.  Python floats are outside the model (their equality is not reflexive
at NaN and the program never produces one). -/

inductive Json where
  | null : Json
  | bool (b : Bool) : Json
  | int (i : Int) : Json
  | str (s : String) : Json
  | arr (l : List Json) : Json
  | obj (l : List (String × Json)) : Json

/-- Python truthiness of a JSON value (`if not x`). -/
def truthy : Json → Bool
  | .null => false
  | .bool b => b
  | .int i => i != 0
  | .str s => !s.data.isEmpty
  | .arr l => !l.isEmpty
  | .obj l => !l.isEmpty

/-- `dict.get(k)`: the value stored under `k`, if present (first binding; the
model only ever receives key lists with distinct keys, where this is exact). -/
def jsonGet (members : List (String × Json)) (k : String) : Option Json :=
  match members with
  | [] => none
  | (k0, v) :: rest => if k0 = k then some v else jsonGet rest k

/-- Python `a or b` on an optional lookup result: the value if present and
truthy, the default otherwise. -/
def pyOr (v : Option Json) (dflt : Json) : Json :=
  match v with
  | some x => if truthy x then x else dflt
  | none => dflt

/-! ### `json.dumps` with default options

Default separators are `", "` and `": "`; `ensure_ascii` is on, so every
character outside `0x20`–`0x7e` is `\uXXXX`-escaped (astral characters as a
surrogate pair) and the output is pure ASCII. -/

/-- One character of a string, escaped as CPython's ASCII json encoder does. -/
def escapeCh (c : Char) : List Char :=
  if c = '"' then ['\\', '"']
  else if c = '\\' then ['\\', '\\']
  else if c.toNat = 8 then ['\\', 'b']
  else if c.toNat = 9 then ['\\', 't']
  else if c.toNat = 10 then ['\\', 'n']
  else if c.toNat = 12 then ['\\', 'f']
  else if c.toNat = 13 then ['\\', 'r']
  else if c.toNat < 32 ∨ 127 ≤ c.toNat then
    if c.toNat < 65536 then '\\' :: 'u' :: hex4Chars c.toNat
    else
      ('\\' :: 'u' :: hex4Chars (55296 + (c.toNat - 65536) / 1024))
        ++ ('\\' :: 'u' :: hex4Chars (56320 + (c.toNat - 65536) % 1024))
  else [c]

/-- A dumped string: quote, escaped characters, quote. -/
def dumpsStr (s : String) : List Char :=
  '"' :: (s.data.flatMap escapeCh ++ ['"'])

mutual

/-- `json.dumps` with default options, as a character list. -/
def dumps : Json → List Char
  | .null => (['n', 'u', 'l', 'l'] : List Char)
  | .bool true => (['t', 'r', 'u', 'e'] : List Char)
  | .bool false => (['f', 'a', 'l', 's', 'e'] : List Char)
  | .int i => intChars i
  | .str s => dumpsStr s
  | .arr l => '[' :: (dumpsArr l ++ [']'])
  | .obj l => lbrace :: (dumpsObj l ++ [rbrace])

/-- Array elements joined by `", "`. -/
def dumpsArr : List Json → List Char
  | [] => []
  | v :: rest => dumps v ++ dumpsArrSep rest

/-- The `", "`-prefixed tail of an element list. -/
def dumpsArrSep : List Json → List Char
  | [] => []
  | v :: rest => ',' :: ' ' :: (dumps v ++ dumpsArrSep rest)

/-- Object members `"key": value` joined by `", "`. -/
def dumpsObj : List (String × Json) → List Char
  | [] => []
  | (k, v) :: rest => dumpsStr k ++ ':' :: ' ' :: (dumps v ++ dumpsObjSep rest)

/-- The `", "`-prefixed tail of a member list. -/
def dumpsObjSep : List (String × Json) → List Char
  | [] => []
  | (k, v) :: rest => ',' :: ' ' :: (dumpsStr k ++ ':' :: ' ' :: (dumps v ++ dumpsObjSep rest))

end

mutual

/-- Key lists of every object in the value are duplicate-free: the values that
arise from Python dicts (duplicates cannot exist in a dict, and `json.loads`
collapses them, so only such values are in the model's faithful domain). -/
def wfKeys : Json → Bool
  | .null => true
  | .bool _ => true
  | .int _ => true
  | .str _ => true
  | .arr l => wfKeysArr l
  | .obj l => ((l.map Prod.fst).Nodup : Bool) && wfKeysObj l

/-- `wfKeys` over an array's elements. -/
def wfKeysArr : List Json → Bool
  | [] => true
  | v :: rest => wfKeys v && wfKeysArr rest

/-- `wfKeys` over an object's member values. -/
def wfKeysObj : List (String × Json) → Bool
  | [] => true
  | (_, v) :: rest => wfKeys v && wfKeysObj rest

end

/-! ### `json.loads`

A fuel-structural recursive-descent scanner equivalent to CPython's on the
documents this program handles.  Divergences, all outside the inputs the
claims touch: numbers with a fraction or exponent (floats) are rejected
instead of parsed, leading zeros are accepted, `NaN`/`Infinity` literals are
rejected, and `\uXXXX` escapes encoding lone surrogates are rejected (a Lean
`Char` cannot carry them). -/

/-- The single-character escapes the json scanner accepts. -/
def unescapeCh (c : Char) : Option Char :=
  if c = '"' then some '"'
  else if c = '\\' then some '\\'
  else if c = '/' then some '/'
  else if c = 'b' then some (Char.ofNat 8)
  else if c = 'f' then some (Char.ofNat 12)
  else if c = 'n' then some (Char.ofNat 10)
  else if c = 'r' then some (Char.ofNat 13)
  else if c = 't' then some (Char.ofNat 9)
  else none

/-- The state of the string scanner: at the top level, after a backslash,
after `\u`, or expecting the low half of a surrogate pair. -/
inductive StrMode where
  | top
  | esc
  | u
  | low (n : Nat)

/-- The string-body scanner, one character class per step; single structural
recursion on the input so the kernel can evaluate it. -/
def scanStrM : StrMode → List Char → List Char → Option (String × List Char)
  | .top, acc, c :: rest =>
      if c = '"' then some (String.mk acc.reverse, rest)
      else if c = '\\' then scanStrM .esc acc rest
      else scanStrM .top (c :: acc) rest
  | .esc, acc, e :: rest1 =>
      if e = 'u' then scanStrM .u acc rest1
      else
        match unescapeCh e with
        | some ch => scanStrM .top (ch :: acc) rest1
        | none => none
  | .u, acc, a :: b :: c :: d :: rest2 =>
      (hex4Val a b c d).bind (fun n =>
        if 55296 ≤ n ∧ n < 56320 then scanStrM (.low n) acc rest2
        else if 56320 ≤ n ∧ n < 57344 then none
        else scanStrM .top (Char.ofNat n :: acc) rest2)
  | .low n, acc, x1 :: x2 :: a :: b :: c :: d :: rest3 =>
      if x1 = '\\' ∧ x2 = 'u' then
        (hex4Val a b c d).bind (fun m =>
          if 56320 ≤ m ∧ m < 57344 then
            scanStrM .top (Char.ofNat (65536 + (n - 55296) * 1024 + (m - 56320)) :: acc) rest3
          else none)
      else none
  | _, _, _ => none

/-- Scan a string body after the opening quote; `acc` holds the characters
read so far, reversed. -/
def scanStr (acc : List Char) (s : List Char) : Option (String × List Char) :=
  scanStrM .top acc s

/-- Apply an optional leading minus sign to a scanned digit-run value. -/
def signApply (neg : Bool) (n : Nat) : Int :=
  if neg then -(n : Int) else (n : Int)

/-- Scan the digit run after an optional sign; rejects a following
`.`/`e`/`E`, which would begin a float, outside the model. -/
def scanIntCore (neg : Bool) (body : List Char) : Option (Json × List Char) :=
  match takeDigits body with
  | ([], _) => none
  | (d1, []) => some (.int (signApply neg (digitsVal d1)), [])
  | (d1, c2 :: t2) =>
      if c2 = '.' ∨ c2 = 'e' ∨ c2 = 'E' then none
      else some (.int (signApply neg (digitsVal d1)), c2 :: t2)

/-- Scan an integer: optional minus sign, then a digit run. -/
def scanInt (s : List Char) : Option (Json × List Char) :=
  match s with
  | [] => none
  | c :: r => if c = '-' then scanIntCore true r else scanIntCore false (c :: r)

mutual

/-- Scan one JSON value, skipping leading whitespace.  Structural on `fuel`. -/
def scanVal : Nat → List Char → Option (Json × List Char)
  | 0, _ => none
  | fuel + 1, s =>
      match skipJsonWs s with
      | [] => none
      | c :: r =>
          if c = 'n' then
            match r with
            | 'u' :: 'l' :: 'l' :: r2 => some (.null, r2)
            | _ => none
          else if c = 't' then
            match r with
            | 'r' :: 'u' :: 'e' :: r2 => some (.bool true, r2)
            | _ => none
          else if c = 'f' then
            match r with
            | 'a' :: 'l' :: 's' :: 'e' :: r2 => some (.bool false, r2)
            | _ => none
          else if c = '"' then
            (scanStr [] r).map (fun p => (.str p.1, p.2))
          else if c = '[' then
            match skipJsonWs r with
            | [] => none
            | c2 :: r2 =>
                if c2 = ']' then some (.arr [], r2)
                else (scanElems fuel (c2 :: r2)).map (fun p => (.arr p.1, p.2))
          else if c = lbrace then
            match skipJsonWs r with
            | [] => none
            | c2 :: r2 =>
                if c2 = rbrace then some (.obj [], r2)
                else (scanMembers fuel (c2 :: r2)).map (fun p => (.obj p.1, p.2))
          else if c = '-' ∨ isDigitCh c then scanInt (c :: r)
          else none
termination_by structural fuel _s => fuel

/-- Scan one or more comma-separated array elements up to the closing `]`. -/
def scanElems : Nat → List Char → Option (List Json × List Char)
  | 0, _ => none
  | fuel + 1, s =>
      (scanVal fuel s).bind (fun p =>
        match skipJsonWs p.2 with
        | ',' :: r2 => (scanElems fuel r2).map (fun q => (p.1 :: q.1, q.2))
        | ']' :: r2 => some ([p.1], r2)
        | _ => none)
termination_by structural fuel _s => fuel

/-- Scan one or more comma-separated `"key": value` members up to the
closing brace. -/
def scanMembers : Nat → List Char → Option (List (String × Json) × List Char)
  | 0, _ => none
  | fuel + 1, s =>
      match skipJsonWs s with
      | '"' :: r =>
          (scanStr [] r).bind (fun pk =>
            match skipJsonWs pk.2 with
            | ':' :: r2 =>
                (scanVal fuel r2).bind (fun pv =>
                  match skipJsonWs pv.2 with
                  | ',' :: r4 => (scanMembers fuel r4).map (fun q => ((pk.1, pv.1) :: q.1, q.2))
                  | c :: r4 => if c = rbrace then some ([(pk.1, pv.1)], r4) else none
                  | [] => none)
            | _ => none)
      | _ => none
termination_by structural fuel _s => fuel

end

/-- `json.loads`: scan one document and require only whitespace after it. -/
def loads (s : List Char) : Option Json :=
  match scanVal (s.length + 1) s with
  | some (v, r) => if skipJsonWs r = [] then some v else none
  | none => none

/-! ### UTF-8 (`str.encode('utf-8')` / `bytes.decode('utf-8')`) -/

/-- UTF-8 bytes of one scalar value. -/
def utf8Ch (c : Char) : List Nat :=
  let n := c.toNat
  if n < 128 then [n]
  else if n < 2048 then [192 + n / 64, 128 + n % 64]
  else if n < 65536 then [224 + n / 4096, 128 + n / 64 % 64, 128 + n % 64]
  else [240 + n / 262144, 128 + n / 4096 % 64, 128 + n / 64 % 64, 128 + n % 64]

/-- `str.encode('utf-8')`. -/
def utf8Encode (s : String) : List Nat := s.data.flatMap utf8Ch

/-- Is `b` a UTF-8 continuation byte? -/
def isCont (b : Nat) : Bool := 128 ≤ b && b < 192

/-- Decoder state: at a character boundary, or inside a multi-byte sequence
still needing `k` continuation bytes, with the accumulated code point so far
and the smallest code point the sequence is allowed to produce (the overlong
bound). -/
inductive U8Mode where
  | top : U8Mode
  | need (k : Nat) (acc : Nat) (lo : Nat) : U8Mode

/-- Strict UTF-8 decoding, as `bytes.decode('utf-8')`: rejects stray or
missing continuation bytes, overlong forms, surrogates, and values above
`0x10FFFF`.  A lead byte below `0xC2` starts either a stray continuation or
an overlong two-byte form, so it is rejected outright; the remaining overlong
forms are caught by the `lo` bound when the sequence completes. -/
def utf8DecM : U8Mode → List Nat → Option (List Char)
  | .top, [] => some []
  | .top, b :: rest =>
      if b < 128 then (utf8DecM .top rest).map (fun cs => Char.ofNat b :: cs)
      else if b < 194 then none
      else if b < 224 then utf8DecM (.need 1 (b - 192) 128) rest
      else if b < 240 then utf8DecM (.need 2 (b - 224) 2048) rest
      else if b < 245 then utf8DecM (.need 3 (b - 240) 65536) rest
      else none
  | .need _ _ _, [] => none
  | .need k acc lo, b :: rest =>
      if isCont b then
        if k = 1 then
          if acc * 64 + (b - 128) < lo
              ∨ (55296 ≤ acc * 64 + (b - 128) ∧ acc * 64 + (b - 128) < 57344)
              ∨ 1114112 ≤ acc * 64 + (b - 128) then none
          else (utf8DecM .top rest).map (fun cs => Char.ofNat (acc * 64 + (b - 128)) :: cs)
        else utf8DecM (.need (k - 1) (acc * 64 + (b - 128)) lo) rest
      else none

/-- `bytes.decode('utf-8')` on a whole byte string. -/
def utf8Decode (bs : List Nat) : Option (List Char) := utf8DecM .top bs

/-! ### The message channel (`read_message` / `write_message`)

The wire format is `struct.pack('=I', len(msg))` — four bytes, unsigned,
little-endian on the host this program targets — followed by the UTF-8 payload. -/

/-- `struct.pack('=I', n)` for `n < 2^32`: four little-endian bytes. -/
def packLE4 (n : Nat) : List Nat :=
  [n % 256, n / 256 % 256, n / 65536 % 256, n / 16777216 % 256]

/-- `struct.unpack('=I', bytes)[0]` on a four-byte list. -/
def unpackLE4 (bs : List Nat) : Nat :=
  match bs with
  | [b0, b1, b2, b3] => b0 + b1 * 256 + b2 * 65536 + b3 * 16777216
  | _ => 0

/-- `read_message()`: read four bytes as the length prefix (end of input if
fewer are available), then that many payload bytes, and decode them as UTF-8.
`none` is end of input (Python `None`); `some none` is a `UnicodeDecodeError`
raised out of the function; `some (some s)` is the decoded text. -/
def read_message (stdin : List Nat) : Option (Option String) :=
  if stdin.length < 4 then none
  else
    let msg_len := unpackLE4 (stdin.take 4)
    let body := (stdin.drop 4).take msg_len
    match utf8Decode body with
    | some cs => some (some (String.mk cs))
    | none => some none

/-- `write_message(obj)`: serialize to JSON, UTF-8-encode, and emit the
four-byte length prefix followed by the payload.  `none` models the
`struct.error` raised when the payload does not fit an unsigned 32-bit
length. -/
def write_message (o : Json) : Option (List Nat) :=
  let msg := utf8Encode (String.mk (dumps o))
  if msg.length < 4294967296 then some (packLE4 msg.length ++ msg) else none

/-! ### `base64.b64decode` (validate off)

CPython's `binascii.a2b_base64` in non-strict mode: characters outside the
alphabet are discarded; `=` accumulates as padding and, once at least two data
characters of a quad plus enough pads make four, decoding stops there; a
data character discards pending pads.  Leftover data of one character is a
length error, of two or three an `Incorrect padding` error. -/

/-- The base64 alphabet value of a character, if it has one. -/
def b64Val (c : Char) : Option Nat :=
  if 65 ≤ c.toNat ∧ c.toNat ≤ 90 then some (c.toNat - 65)
  else if 97 ≤ c.toNat ∧ c.toNat ≤ 122 then some (c.toNat - 97 + 26)
  else if 48 ≤ c.toNat ∧ c.toNat ≤ 57 then some (c.toNat - 48 + 52)
  else if c = '+' then some 62
  else if c = '/' then some 63
  else none

/-- Bytes of a final partial quad of two or three six-bit values. -/
def b64Leftover (quad : List Nat) : List Nat :=
  match quad with
  | [a, b] => [a * 4 + b / 16]
  | [a, b, c] => [a * 4 + b / 16, b % 16 * 16 + c / 4]
  | _ => []

/-- One scanning pass of `a2b_base64`; `quad` holds the six-bit values of the
current quad (at most three) and `pads` the pending padding count. -/
def b64Run (acc : List Nat) (quad : List Nat) (pads : Nat) :
    List Char → Except String (List Nat)
  | [] =>
      match quad with
      | [] => .ok acc
      | [_] => .error "Invalid base64-encoded string: number of data characters cannot be 1 more than a multiple of 4"
      | _ => .error "Incorrect padding"
  | c :: rest =>
      if c = '=' then
        if 2 ≤ quad.length ∧ 4 ≤ quad.length + pads + 1 then .ok (acc ++ b64Leftover quad)
        else b64Run acc quad (pads + 1) rest
      else
        match b64Val c with
        | some v =>
            match quad with
            | [a, b, cq] => b64Run (acc ++ [a * 4 + b / 16, b % 16 * 16 + cq / 4, cq % 4 * 64 + v]) [] 0 rest
            | _ => b64Run acc (quad ++ [v]) 0 rest
        | none => b64Run acc quad pads rest

/-- `base64.b64decode(s)` with default arguments. -/
def b64decode (s : String) : Except String (List Nat) := b64Run [] [] 0 s.data

/-! ### Filesystem state and observable effects

The filesystem is the list of paths that exist; effects record every
filesystem and clipboard interaction a run performs, so "performs no
filesystem access and no clipboard access" is an empty trace. -/

/-- Paths existing in the temporary-storage area. -/
abbrev FS := List String

/-- One observable interaction with the OS. -/
inductive Effect where
  | fsCreate (path : String)
  | fsWrite (path : String)
  | fsRead (path : String)
  | fsUnlink (path : String)
  | clipRegister (name : String)
  | clipOpen
  | clipEmpty
  | clipSetBytes (fmt : Nat) (payload : List Nat)
  | clipSetText (text : String)
  | clipClose
deriving DecidableEq

/-! ### The conversion chain (`cdxml_to_cdx_bytes` in the native host)

A converter module is the pair of capabilities the code uses; its functions
receive the staged file's content (the code passes the path; the file holds
exactly the markup that was written).  `ConvEnv` fixes which providers are
importable and how the temporary-file operations turn out on this run. -/

/-- A markup-to-binary converter provider (`pycdxml` / `cdx_mol`): parse a
staged CDXML file into a document, and serialize a document to base64 CDX.
The document representation is opaque to the program; a `String` stands in. -/
structure Module where
  read_cdxml : String → Except String String
  to_b64_cdx : String → Except String String

/-- The environment of one conversion attempt: provider importability and the
outcomes of the temporary-file operations.  `tmpName` is the fresh name the
`tempfile` module picks; `tmpCreateOk` / `tmpWriteOk` are whether creating the
file and writing the markup into it succeed (an `OSError` or a
`UnicodeEncodeError` — e.g. markup carrying a lone surrogate that arrived via
a `\uXXXX` escape — makes the write raise). -/
structure ConvEnv where
  pycdxml : Option Module
  cdx_mol : Option Module
  tmpName : String
  tmpCreateOk : Bool
  tmpWriteOk : Bool

/-- The provider import chain: try `pycdxml`, on `ImportError` try `cdx_mol`. -/
def importChain (env : ConvEnv) : Option Module :=
  match env.pycdxml with
  | some m => some m
  | none => env.cdx_mol

/-- Run an imported provider on staged markup: parse, serialize, and decode
the base64 text to raw bytes. -/
def runModule (m : Module) (cdxml : String) : Except String (List Nat) := do
  let doc ← m.read_cdxml cdxml
  let b64 ← m.to_b64_cdx doc
  b64decode b64

/-- `cdxml_to_cdx_bytes(cdxml)` of the native host: the `(bytes | None,
err | None)` pair, the filesystem afterwards, and the effect trace.  The
temporary file is written with `delete=False`; `tmp_path` is only assigned
after a successful write, and the `finally` block unlinks only when
`tmp_path` was set. -/
def cdxml_to_cdx_bytes (env : ConvEnv) (fs : FS) (cdxml : String) :
    (Option (List Nat) × Option String) × FS × List Effect :=
  match importChain env with
  | none => ((none, some "Install cdx-mol: pip install cdx-mol"), fs, [])
  | some m =>
      if ¬ env.tmpCreateOk then
        -- NamedTemporaryFile raised; caught by `except Exception`; tmp_path is
        -- None so the finally block does not unlink.
        ((none, some "could not create temporary file"), fs, [])
      else
        let fs1 : FS := env.tmpName :: fs
        if ¬ env.tmpWriteOk then
          -- f.write(cdxml) raised; the file exists but tmp_path was never
          -- assigned, so the finally block does not unlink it.
          ((none, some "could not write temporary file"), fs1, [.fsCreate env.tmpName])
        else
          let fs2 : FS := fs1.filter (fun p => p ≠ env.tmpName)
          let tr : List Effect :=
            [.fsCreate env.tmpName, .fsWrite env.tmpName, .fsRead env.tmpName,
             .fsUnlink env.tmpName]
          match runModule m cdxml with
          | .ok bytes => ((some bytes, none), fs2, tr)
          | .error e => ((none, some e), fs2, tr)

/-! ### The clipboard delivery block (native host, lines 106–118) -/

/-- The outcomes of the clipboard API calls on this run.  Registering the
format and closing the clipboard are taken to succeed (the code would surface
a registration failure through the same `except` branch; a `CloseClipboard`
failure after a successful write is not modelled). -/
structure ClipEnv where
  fmtId : Nat
  openResult : Except String Unit
  emptyResult : Except String Unit
  setCdxResult : Except String Unit
  setTextResult : Except String Unit

/-- The final failure response carrying reason `e`. -/
def mkErr (e : String) : Json :=
  .obj [("success", .bool false), ("error", .str e)]

/-- The success response. -/
def successMsg : Json := .obj [("success", .bool true)]

/-- The clipboard transaction of the native host: register the custom format,
open, then inside a `try`/`finally` clear, write the CDX bytes, optionally
write the markup as `CF_UNICODETEXT`, and always close; any exception becomes
a failure response. -/
def deliverToClipboard (clip : ClipEnv) (cdx_bytes : List Nat) (cdxml : String) :
    Json × List Effect :=
  let pre : List Effect := [.clipRegister "ChemDraw Interchange Format"]
  match clip.openResult with
  | .error e => (mkErr e, pre ++ [.clipOpen])
  | .ok _ =>
      match clip.emptyResult with
      | .error e => (mkErr e, pre ++ [.clipOpen, .clipEmpty, .clipClose])
      | .ok _ =>
          match clip.setCdxResult with
          | .error e =>
              (mkErr e, pre ++ [.clipOpen, .clipEmpty,
                .clipSetBytes clip.fmtId cdx_bytes, .clipClose])
          | .ok _ =>
              if cdxml.data ≠ [] then
                match clip.setTextResult with
                | .error e =>
                    (mkErr e, pre ++ [.clipOpen, .clipEmpty,
                      .clipSetBytes clip.fmtId cdx_bytes, .clipSetText cdxml, .clipClose])
                | .ok _ =>
                    (successMsg, pre ++ [.clipOpen, .clipEmpty,
                      .clipSetBytes clip.fmtId cdx_bytes, .clipSetText cdxml, .clipClose])
              else
                (successMsg, pre ++ [.clipOpen, .clipEmpty,
                  .clipSetBytes clip.fmtId cdx_bytes, .clipClose])

/-! ### The host process (`main` of the native host) -/

/-- The whole environment of one host invocation. -/
structure HostEnv where
  platform : String
  stdin : List Nat
  win32 : Bool
  conv : ConvEnv
  clip : ClipEnv

/-- Field extraction of the first `try` block: `(data.get('cdxml') or
'').strip()` and `data.get('cdx') or data.get('cdxBase64') or ''`.  A non-dict
document or a truthy non-string `cdxml` raises an `AttributeError`, caught by
the same `except` as the parse errors. -/
def extractFields (data : Json) : Except String (String × Json) :=
  match data with
  | .obj members =>
      match pyOr (jsonGet members "cdxml") (.str "") with
      | .str s =>
          .ok (pyStrip s,
            pyOr (jsonGet members "cdx") (pyOr (jsonGet members "cdxBase64") (.str "")))
      | _ => .error "AttributeError: str attribute strip"
  | _ => .error "AttributeError: object has no attribute get"

/-- The host's handling of one parsed request document: validate, import
`win32clipboard`, run the conversion chain, fall back to the pre-encoded
blob, and deliver to the clipboard.  Returns the responses written, the
effect trace, and the filesystem afterwards. -/
def handleRequest (env : HostEnv) (data : Json) (fs : FS) :
    List Json × List Effect × FS :=
  match extractFields data with
  | .error e => ([mkErr e], [], fs)
  | .ok (cdxml, cdx_b64) =>
      if cdxml.data = [] ∧ ¬ truthy cdx_b64 then
        ([mkErr "Missing cdxml or cdx field"], [], fs)
      else if ¬ env.win32 then
        ([mkErr "Install pywin32: pip install pywin32"], [], fs)
      else
        let step1 : (Option (List Nat) × Option String) × FS × List Effect :=
          if cdxml.data ≠ [] then cdxml_to_cdx_bytes env.conv fs cdxml
          else ((none, none), fs, [])
        let fs1 := step1.2.1
        let tr1 := step1.2.2
        let cdx_bytes : Option (List Nat) :=
          match step1.1.1 with
          | some b => some b
          | none =>
              if truthy cdx_b64 then
                match cdx_b64 with
                | .str s =>
                    match b64decode s with
                    | .ok b => some b
                    | .error _ => none     -- `except Exception: pass`
                | _ => none                -- b64decode(non-str): TypeError, same pass
              else none
        match cdx_bytes with
        | none =>
            ([mkErr "Could not get CDX. Install cdx-mol: pip install cdx-mol"],
             tr1, fs1)
        | some b =>
            let d := deliverToClipboard env.clip b cdxml
            ([d.1], tr1 ++ d.2, fs1)

/-- `main()` of the native host: platform check, one framed read, JSON parse,
then `handleRequest`. -/
def hostMain (env : HostEnv) (fs : FS) : List Json × List Effect × FS :=
  if env.platform ≠ "win32" then ([mkErr "Windows only"], [], fs)
  else
    match read_message env.stdin with
    | none => ([mkErr "No input"], [], fs)
    | some none => ([mkErr "utf-8 codec cannot decode input"], [], fs)
    | some (some raw) =>
        if raw.data = [] then ([mkErr "No input"], [], fs)
        else
          match loads raw.data with
          | none => ([mkErr "Expecting value"], [], fs)
          | some data => handleRequest env data fs

/-! ### The HTTP request handler (`api/cdxml-to-cdx.py`) -/

/-- `convert_cdxml_to_cdx(cdxml)` of the serverless function: import chain,
stage the markup in `/tmp`, convert inside a `try`/`finally` that unlinks the
staged file.  Failures are raised (`Except.error`); as in the native host,
the temporary name is assigned only after a successful write, so a failing
create or write leaves nothing unlinked. -/
def convert_cdxml_to_cdx (env : ConvEnv) (fs : FS) (cdxml : String) :
    Except String (List Nat) × FS × List Effect :=
  match importChain env with
  | none => (.error "cdx-mol not installed", fs, [])
  | some m =>
      if ¬ env.tmpCreateOk then
        (.error "could not create temporary file", fs, [])
      else
        let fs1 : FS := env.tmpName :: fs
        if ¬ env.tmpWriteOk then
          (.error "could not write temporary file", fs1, [.fsCreate env.tmpName])
        else
          let fs2 : FS := fs1.filter (fun p => p ≠ env.tmpName)
          let tr : List Effect :=
            [.fsCreate env.tmpName, .fsWrite env.tmpName, .fsRead env.tmpName,
             .fsUnlink env.tmpName]
          (runModule m cdxml, fs2, tr)

/-- The outcome of one HTTP request: a response with status, headers in the
order sent, and a body — or an exception that escaped the handler. -/
inductive HttpOutcome where
  | resp (status : Nat) (headers : List (String × String)) (body : List Nat)
  | crash (e : String)
deriving DecidableEq

/-- The headers of the handler's JSON error responses. -/
def errHeaders : List (String × String) :=
  [("Access-Control-Allow-Origin", "*"), ("Content-Type", "application/json")]

/-- A 400/500 JSON error body, as the handler writes it. -/
def errBody (e : String) : List Nat :=
  utf8Encode (String.mk (dumps (.obj [("error", .str e)])))

/-- `handler.do_POST`: read `Content-Length` bytes, decode, parse, extract
`cdxml` (all inside one `try` ending in a 400), then validate non-emptiness,
convert, and answer 500 on failure or 200 with the binary on success.
`contentLength` is the parsed `Content-Length` header; the body read is
`rfile.read(contentLength)`.  A truthy non-string `cdxml` makes the
`.strip()` outside the `try` raise out of the handler (`crash`). -/
def do_POST (env : ConvEnv) (contentLength : Nat) (stream : List Nat) (fs : FS) :
    HttpOutcome × FS × List Effect :=
  let body := stream.take contentLength
  match utf8Decode body with
  | none =>
      (.resp 400 errHeaders (errBody "Invalid request: utf-8 codec cannot decode body"), fs, [])
  | some cs =>
      match loads cs with
      | none => (.resp 400 errHeaders (errBody "Invalid request: Expecting value"), fs, [])
      | some data =>
          match data with
          | .obj members =>
              match pyOr (jsonGet members "cdxml") (.str "") with
              | .str s =>
                  if (pyStrip s).data = [] then
                    (.resp 400 errHeaders (errBody "Missing or empty cdxml"), fs, [])
                  else
                    match convert_cdxml_to_cdx env fs (pyStrip s) with
                    | (.error e, fs1, tr) => (.resp 500 errHeaders (errBody e), fs1, tr)
                    | (.ok bytes, fs1, tr) =>
                        (.resp 200
                          [("Access-Control-Allow-Origin", "*"),
                           ("Content-Type", "application/octet-stream"),
                           ("Content-Disposition", "attachment; filename=\"structure.cdx\""),
                           ("Content-Length", String.mk (natChars bytes.length))]
                          bytes, fs1, tr)
              | _ => (.crash "AttributeError: str attribute strip", fs, [])
          | _ =>
              (.resp 400 errHeaders
                (errBody "Invalid request: object has no attribute get"), fs, [])

/-! ### The standalone file-to-clipboard script (`cdx_to_clipboard.py`),
clipboard section (lines 43–50): register, open, then clear and write inside
a `try` whose `finally` closes; an exception in the body propagates after the
close.  `.ok` means the success message was printed. -/

/-- The script's clipboard block.  `Except.error e` is the exception that
propagates out (no success message printed); the trace records the calls
made. -/
def scriptPutOnClipboard (clip : ClipEnv) (cdx_bytes : List Nat) :
    Except String Unit × List Effect :=
  let pre : List Effect := [.clipRegister "ChemDraw Interchange Format"]
  match clip.openResult with
  | .error e => (.error e, pre ++ [.clipOpen])
  | .ok _ =>
      match clip.emptyResult with
      | .error e => (.error e, pre ++ [.clipOpen, .clipEmpty, .clipClose])
      | .ok _ =>
          match clip.setCdxResult with
          | .error e =>
              (.error e, pre ++ [.clipOpen, .clipEmpty,
                .clipSetBytes clip.fmtId cdx_bytes, .clipClose])
          | .ok _ =>
              (.ok (), pre ++ [.clipOpen, .clipEmpty,
                .clipSetBytes clip.fmtId cdx_bytes, .clipClose])

/-! ### The conversion chain the claim describes

Modelled from the spec's words, for comparison with `cdxml_to_cdx_bytes`:
"attempt markup→binary conversion through an ordered list of interchangeable
converter-capability providers; try each in turn until one succeeds; each
attempt that raises any error (missing capability, parse failure,
serialization failure) is treated as 'this provider unavailable' and the next
provider is tried."  So a whole attempt — import *and* conversion — failing
moves on to the next provider. -/

/-- One whole attempt with one provider slot: unavailable, or the full
parse/serialize/decode pipeline's outcome. -/
def claimAttempt (slot : Option Module) (cdxml : String) : Option (List Nat) :=
  match slot with
  | none => none
  | some m =>
      match runModule m cdxml with
      | .ok b => some b
      | .error _ => none

/-- The claim's chain over the provider order `pycdxml`, `cdx_mol`: first
fully successful attempt wins. -/
def claimChain (env : ConvEnv) (cdxml : String) : Option (List Nat) :=
  match claimAttempt env.pycdxml cdxml with
  | some b => some b
  | none => claimAttempt env.cdx_mol cdxml

/-- Frame a message text the way `write_message` does. -/
def mkFrame (t : String) : List Nat :=
  packLE4 (utf8Encode t).length ++ utf8Encode t

/-! ### Concrete example inputs used throughout the development -/

/-- A provider whose parse step raises. -/
def parseFailModule : Module := ⟨fun _ => .error "CDXML parse failed", fun d => .ok d⟩

/-- A provider that accepts any markup and serializes to the base64 text
`"QUJD"` (the bytes `ABC`). -/
def okModule : Module := ⟨fun s => .ok s, fun _ => .ok "QUJD"⟩

/-- A provider that serializes every document to the empty base64 text,
which decodes to zero bytes. -/
def emptyB64Module : Module := ⟨fun s => .ok s, fun _ => .ok ""⟩

/-- Both providers importable: `pycdxml` parse-fails, `cdx_mol` would succeed. -/
def envBothProviders : ConvEnv := ⟨some parseFailModule, some okModule, "tmpA", true, true⟩

/-- Only a provider producing empty payloads; temporary-file operations succeed. -/
def envEmptyB64 : ConvEnv := ⟨some emptyB64Module, none, "tmpA", true, true⟩

/-- A working provider with a failing temporary-file write. -/
def envWriteFails : ConvEnv := ⟨some okModule, none, "tmpA", true, false⟩

/-- A working provider with clean temporary-file operations. -/
def envConvOk : ConvEnv := ⟨some okModule, none, "tmpA", true, true⟩

/-- Clipboard calls that all succeed; the registered format id is 777. -/
def okClip : ClipEnv := ⟨777, .ok (), .ok (), .ok (), .ok ()⟩

/-- A Windows host whose provider produces empty payloads. -/
def hostOk : HostEnv := ⟨"win32", [], true, envEmptyB64, okClip⟩

/-- A host on a non-target platform. -/
def darwinHost : HostEnv := ⟨"darwin", [], false, envConvOk, okClip⟩

/-- A Windows host whose stdin carries the zero-length frame. -/
def zeroFrameHost : HostEnv := ⟨"win32", mkFrame "", true, envConvOk, okClip⟩

/-- A request document with whitespace-only markup and a valid blob. -/
def wsMarkupDoc : Json := .obj [("cdxml", .str "   "), ("cdx", .str "QUJD")]

/-- A request document carrying only an invalid-base64 blob. -/
def badBlobDoc : Json := .obj [("cdx", .str "A")]

/-- An HTTP body with whitespace-only markup. -/
def exampleBody : String := "\x7b\"cdxml\": \"   \"\x7d"

/-- A Windows host whose provider parse-fails, with no working fallback path. -/
def hostParseFail : HostEnv := ⟨"win32", [], true, envBothProviders, okClip⟩

/-- A request document with convertible-looking markup and an invalid blob. -/
def convFailBlobDoc : Json := .obj [("cdxml", .str "x"), ("cdx", .str "A")]

/-! ## Lemmas: decimal digits -/

theorem charOfNat_toNat (n : Nat) (h : n.isValidChar) : (Char.ofNat n).toNat = n := by
  simp [Char.ofNat, h, Char.ofNatAux, Char.toNat]
  rfl

theorem digitCh_toNat (d : Nat) (h : d < 10) : (digitCh d).toNat = 48 + d := by
  have hv : (48 + d).isValidChar := Or.inl (by omega)
  simpa [digitCh] using charOfNat_toNat (48 + d) hv

theorem isDigitCh_digitCh (d : Nat) (h : d < 10) : isDigitCh (digitCh d) = true := by
  simp [isDigitCh, digitCh_toNat d h]
  omega

theorem natCharsAux_digits (fuel n : Nat) :
    ∀ c ∈ natCharsAux fuel n, isDigitCh c = true := by
  induction fuel generalizing n with
  | zero => simp [natCharsAux]
  | succ f ih =>
      intro c hc
      rw [natCharsAux] at hc
      by_cases h : n < 10
      · rw [if_pos h] at hc
        simp at hc
        subst hc
        exact isDigitCh_digitCh n h
      · rw [if_neg h] at hc
        rcases List.mem_append.mp hc with h1 | h1
        · exact ih (n / 10) c h1
        · simp at h1
          subst h1
          exact isDigitCh_digitCh (n % 10) (Nat.mod_lt _ (by omega))

theorem natCharsAux_ne_nil (fuel n : Nat) (h : n < fuel) : natCharsAux fuel n ≠ [] := by
  cases fuel with
  | zero => omega
  | succ f =>
      rw [natCharsAux]
      by_cases h10 : n < 10 <;> simp [h10]

theorem foldl_digits_shift (ds : List Char) (a : Nat) :
    ds.foldl (fun x c => x * 10 + (c.toNat - 48)) a
      = a * 10 ^ ds.length + ds.foldl (fun x c => x * 10 + (c.toNat - 48)) 0 := by
  induction ds generalizing a with
  | nil => simp
  | cons c t ih =>
      simp only [List.foldl_cons, List.length_cons]
      rw [ih (a * 10 + (c.toNat - 48)), ih (0 * 10 + (c.toNat - 48)), pow_succ]
      ring

theorem digitsVal_natCharsAux (fuel n : Nat) (h : n < fuel) :
    digitsVal (natCharsAux fuel n) = n := by
  induction fuel generalizing n with
  | zero => omega
  | succ f ih =>
      rw [natCharsAux]
      by_cases h10 : n < 10
      · rw [if_pos h10]
        simp [digitsVal, digitCh_toNat n h10]
      · rw [if_neg h10]
        have hrec : n / 10 < f := by
          have : n / 10 < n := Nat.div_lt_self (by omega) (by omega)
          omega
        have hih := ih (n / 10) hrec
        simp only [digitsVal] at hih ⊢
        rw [List.foldl_append]
        simp only [List.foldl_cons, List.foldl_nil]
        rw [hih, digitCh_toNat _ (Nat.mod_lt _ (by omega))]
        omega

theorem digitsVal_natChars (n : Nat) : digitsVal (natChars n) = n :=
  digitsVal_natCharsAux (n + 1) n (by omega)

theorem natChars_digits (n : Nat) : ∀ c ∈ natChars n, isDigitCh c = true :=
  natCharsAux_digits (n + 1) n

theorem natChars_ne_nil (n : Nat) : natChars n ≠ [] :=
  natCharsAux_ne_nil (n + 1) n (by omega)

/-- A rest list that cannot extend a dumped number: empty, or starting with a
JSON separator (`,`, `]`, or the closing brace). -/
def sepRest (rest : List Char) : Prop :=
  rest = [] ∨ ∃ c t, rest = c :: t ∧ (c = ',' ∨ c = ']' ∨ c = rbrace)

theorem sepRest_head_not_digit {c : Char} {t : List Char} (h : sepRest (c :: t)) :
    isDigitCh c = false ∧ c ≠ '.' ∧ c ≠ 'e' ∧ c ≠ 'E' := by
  rcases h with h | ⟨c0, t0, heq, hc⟩
  · simp at h
  · cases heq
    rcases hc with rfl | rfl | rfl <;> refine ⟨by decide, by decide, by decide, by decide⟩

theorem takeDigits_stop {rest : List Char} (h : sepRest rest) :
    takeDigits rest = ([], rest) := by
  rcases h with rfl | ⟨c, t, rfl, hc⟩
  · rfl
  · have : isDigitCh c = false := by
      rcases hc with rfl | rfl | rfl <;> decide
    simp [takeDigits, this]

theorem takeDigits_run (ds : List Char) (rest : List Char)
    (hrest : takeDigits rest = ([], rest))
    (hds : ∀ c ∈ ds, isDigitCh c = true) :
    takeDigits (ds ++ rest) = (ds, rest) := by
  induction ds with
  | nil =>
      rw [List.nil_append, hrest]
  | cons d tl IH =>
      have hd1 : isDigitCh d = true := hds d (List.mem_cons_self d tl)
      have htl : takeDigits (tl ++ rest) = (tl, rest) :=
        IH (fun x hx => hds x (List.mem_cons_of_mem d hx))
      simp [List.cons_append, takeDigits, hd1, htl]

theorem scanIntCore_run (neg : Bool) (ds : List Char) (hne : ds ≠ [])
    (hds : ∀ c ∈ ds, isDigitCh c = true) (rest : List Char) (h : sepRest rest) :
    scanIntCore neg (ds ++ rest) = some (.int (signApply neg (digitsVal ds)), rest) := by
  have htake : takeDigits (ds ++ rest) = (ds, rest) :=
    takeDigits_run ds rest (takeDigits_stop h) hds
  unfold scanIntCore
  rw [htake]
  rcases ds with _ | ⟨d, ds⟩
  · exact absurd rfl hne
  · rcases h with rfl | ⟨c, t, rfl, hc⟩
    · rfl
    · obtain ⟨hd, hdot, he, hE⟩ := sepRest_head_not_digit (.inr ⟨c, t, rfl, hc⟩)
      simp [hdot, he, hE]

theorem scanInt_intChars (i : Int) (rest : List Char) (h : sepRest rest) :
    scanInt (intChars i ++ rest) = some (.int i, rest) := by
  obtain ⟨c0, t0, h0⟩ : ∃ c t, natChars i.natAbs = c :: t := by
    cases hn : natChars i.natAbs with
    | nil => exact absurd hn (natChars_ne_nil _)
    | cons c t => exact ⟨c, t, rfl⟩
  have hc0 : isDigitCh c0 = true := natChars_digits i.natAbs c0 (h0 ▸ by simp)
  have hminus : c0 ≠ '-' := by
    intro hx
    rw [hx] at hc0
    simp [isDigitCh] at hc0
  by_cases hneg : i < 0
  · have hcore := scanIntCore_run true (natChars i.natAbs) (natChars_ne_nil _)
      (natChars_digits _) rest h
    have hsign : signApply true (digitsVal (natChars i.natAbs)) = i := by
      rw [digitsVal_natChars]
      show -(i.natAbs : Int) = i
      omega
    have harg : intChars i ++ rest = '-' :: (natChars i.natAbs ++ rest) := by
      simp [intChars, hneg]
    have hstep : scanInt ('-' :: (natChars i.natAbs ++ rest))
        = scanIntCore true (natChars i.natAbs ++ rest) := by
      simp [scanInt]
    rw [harg, hstep, hcore, hsign]
  · have hcore := scanIntCore_run false (natChars i.natAbs) (natChars_ne_nil _)
      (natChars_digits _) rest h
    have hsign : signApply false (digitsVal (natChars i.natAbs)) = i := by
      rw [digitsVal_natChars]
      show (i.natAbs : Int) = i
      omega
    have harg : intChars i ++ rest = c0 :: (t0 ++ rest) := by
      simp [intChars, hneg, h0]
    have hstep : scanInt (c0 :: (t0 ++ rest)) = scanIntCore false (c0 :: (t0 ++ rest)) := by
      simp [scanInt, hminus]
    have hcons : c0 :: (t0 ++ rest) = natChars i.natAbs ++ rest := by
      rw [h0]
      rfl
    rw [harg, hstep, hcons, hcore, hsign]

/-! ## Lemmas: string escaping -/

theorem charValid (c : Char) : c.toNat < 55296 ∨ (57344 ≤ c.toNat ∧ c.toNat < 1114112) := by
  have h := c.valid
  simp [UInt32.isValidChar, Nat.isValidChar, Char.toNat] at h ⊢
  exact h

theorem hexChVal_hexCh (d : Nat) (h : d < 16) : hexChVal (hexCh d) = some d := by
  interval_cases d <;> decide

theorem hex4Val_hex4Chars (n : Nat) (h : n < 65536) :
    hex4Val (hexCh (n / 4096 % 16)) (hexCh (n / 256 % 16)) (hexCh (n / 16 % 16))
      (hexCh (n % 16)) = some n := by
  rw [hex4Val]
  rw [hexChVal_hexCh _ (Nat.mod_lt _ (by omega)), hexChVal_hexCh _ (Nat.mod_lt _ (by omega)),
      hexChVal_hexCh _ (Nat.mod_lt _ (by omega)), hexChVal_hexCh _ (Nat.mod_lt _ (by omega))]
  have harith : ((n / 4096 % 16 * 16 + n / 256 % 16) * 16 + n / 16 % 16) * 16 + n % 16 = n := by
    omega
  simp [harith]

theorem scanStrM_top_cons (acc : List Char) (c : Char) (rest : List Char) :
    scanStrM .top acc (c :: rest)
      = (if c = '"' then some (String.mk acc.reverse, rest)
         else if c = '\\' then scanStrM .esc acc rest
         else scanStrM .top (c :: acc) rest) := rfl

theorem scanStrM_u_cons (acc : List Char) (a b c d : Char) (rest2 : List Char) :
    scanStrM .u acc (a :: b :: c :: d :: rest2)
      = (hex4Val a b c d).bind (fun n =>
          if 55296 ≤ n ∧ n < 56320 then scanStrM (.low n) acc rest2
          else if 56320 ≤ n ∧ n < 57344 then none
          else scanStrM .top (Char.ofNat n :: acc) rest2) := rfl

theorem scanStrM_low_cons (n : Nat) (acc : List Char) (x1 x2 a b c d : Char)
    (rest3 : List Char) :
    scanStrM (.low n) acc (x1 :: x2 :: a :: b :: c :: d :: rest3)
      = (if x1 = '\\' ∧ x2 = 'u' then
           (hex4Val a b c d).bind (fun m =>
             if 56320 ≤ m ∧ m < 57344 then
               scanStrM .top (Char.ofNat (65536 + (n - 55296) * 1024 + (m - 56320)) :: acc) rest3
             else none)
         else none) := rfl

theorem scanStr_escape (c : Char) (acc rest : List Char) :
    scanStr acc (escapeCh c ++ rest) = scanStr (c :: acc) rest := by
  by_cases h1 : c = '"'
  · subst h1
    rfl
  by_cases h2 : c = '\\'
  · subst h2
    rfl
  by_cases h3 : c.toNat = 8
  · have hc : Char.ofNat 8 = c := h3 ▸ Char.ofNat_toNat c
    have hesc : escapeCh c ++ rest = '\\' :: 'b' :: rest := by
      simp [escapeCh, h1, h2, h3]
    rw [hesc, show scanStr acc ('\\' :: 'b' :: rest) = scanStr (Char.ofNat 8 :: acc) rest from rfl, hc]
  by_cases h4 : c.toNat = 9
  · have hc : Char.ofNat 9 = c := h4 ▸ Char.ofNat_toNat c
    have hesc : escapeCh c ++ rest = '\\' :: 't' :: rest := by
      simp [escapeCh, h1, h2, h3, h4]
    rw [hesc, show scanStr acc ('\\' :: 't' :: rest) = scanStr (Char.ofNat 9 :: acc) rest from rfl, hc]
  by_cases h5 : c.toNat = 10
  · have hc : Char.ofNat 10 = c := h5 ▸ Char.ofNat_toNat c
    have hesc : escapeCh c ++ rest = '\\' :: 'n' :: rest := by
      simp [escapeCh, h1, h2, h3, h4, h5]
    rw [hesc, show scanStr acc ('\\' :: 'n' :: rest) = scanStr (Char.ofNat 10 :: acc) rest from rfl, hc]
  by_cases h6 : c.toNat = 12
  · have hc : Char.ofNat 12 = c := h6 ▸ Char.ofNat_toNat c
    have hesc : escapeCh c ++ rest = '\\' :: 'f' :: rest := by
      simp [escapeCh, h1, h2, h3, h4, h5, h6]
    rw [hesc, show scanStr acc ('\\' :: 'f' :: rest) = scanStr (Char.ofNat 12 :: acc) rest from rfl, hc]
  by_cases h7 : c.toNat = 13
  · have hc : Char.ofNat 13 = c := h7 ▸ Char.ofNat_toNat c
    have hesc : escapeCh c ++ rest = '\\' :: 'r' :: rest := by
      simp [escapeCh, h1, h2, h3, h4, h5, h6, h7]
    rw [hesc, show scanStr acc ('\\' :: 'r' :: rest) = scanStr (Char.ofNat 13 :: acc) rest from rfl, hc]
  by_cases h8 : c.toNat < 32 ∨ 127 ≤ c.toNat
  · by_cases h9 : c.toNat < 65536
    · have hesc : escapeCh c ++ rest
          = '\\' :: 'u' :: (hexCh (c.toNat / 4096 % 16) :: hexCh (c.toNat / 256 % 16)
            :: hexCh (c.toNat / 16 % 16) :: hexCh (c.toNat % 16) :: rest) := by
        simp [escapeCh, h1, h2, h3, h4, h5, h6, h7, h8, h9, hex4Chars]
      have hnosur : ¬ (55296 ≤ c.toNat ∧ c.toNat < 56320) := by
        rcases charValid c with h | h <;> omega
      have hnosur2 : ¬ (56320 ≤ c.toNat ∧ c.toNat < 57344) := by
        rcases charValid c with h | h <;> omega
      rw [hesc,
        show ∀ t, scanStr acc ('\\' :: 'u' :: t) = scanStrM .u acc t from fun t => rfl]
      rw [scanStrM_u_cons, hex4Val_hex4Chars c.toNat h9]
      rw [Option.some_bind]
      rw [if_neg hnosur, if_neg hnosur2, Char.ofNat_toNat]
      rfl
    · have hlt : c.toNat < 1114112 := by
        rcases charValid c with h | h <;> omega
      have hdivlt : (c.toNat - 65536) / 1024 < 1024 := by omega
      have hmodlt : (c.toNat - 65536) % 1024 < 1024 := Nat.mod_lt _ (by omega)
      have hhi : 55296 + (c.toNat - 65536) / 1024 < 65536 := by omega
      have hlo : 56320 + (c.toNat - 65536) % 1024 < 65536 := by omega
      have hesc : escapeCh c ++ rest
          = '\\' :: 'u' :: (hexCh ((55296 + (c.toNat - 65536) / 1024) / 4096 % 16)
            :: hexCh ((55296 + (c.toNat - 65536) / 1024) / 256 % 16)
            :: hexCh ((55296 + (c.toNat - 65536) / 1024) / 16 % 16)
            :: hexCh ((55296 + (c.toNat - 65536) / 1024) % 16)
            :: ('\\' :: 'u' :: (hexCh ((56320 + (c.toNat - 65536) % 1024) / 4096 % 16)
            :: hexCh ((56320 + (c.toNat - 65536) % 1024) / 256 % 16)
            :: hexCh ((56320 + (c.toNat - 65536) % 1024) / 16 % 16)
            :: hexCh ((56320 + (c.toNat - 65536) % 1024) % 16) :: rest))) := by
        simp [escapeCh, h1, h2, h3, h4, h5, h6, h7, h8, h9, hex4Chars]
      rw [hesc,
        show ∀ t, scanStr acc ('\\' :: 'u' :: t) = scanStrM .u acc t from fun t => rfl]
      rw [scanStrM_u_cons, hex4Val_hex4Chars _ hhi]
      rw [Option.some_bind]
      rw [if_pos (by omega : 55296 ≤ 55296 + (c.toNat - 65536) / 1024
        ∧ 55296 + (c.toNat - 65536) / 1024 < 56320)]
      rw [scanStrM_low_cons]
      rw [if_pos (⟨rfl, rfl⟩ : ('\\' : Char) = '\\' ∧ ('u' : Char) = 'u')]
      rw [hex4Val_hex4Chars _ hlo]
      rw [Option.some_bind]
      rw [if_pos (by omega : 56320 ≤ 56320 + (c.toNat - 65536) % 1024
        ∧ 56320 + (c.toNat - 65536) % 1024 < 57344)]
      have harith : 65536 + (55296 + (c.toNat - 65536) / 1024 - 55296) * 1024
          + (56320 + (c.toNat - 65536) % 1024 - 56320) = c.toNat := by
        have := Nat.div_add_mod (c.toNat - 65536) 1024
        omega
      rw [harith, Char.ofNat_toNat]
      rfl
  · have hesc : escapeCh c ++ rest = c :: rest := by
      simp [escapeCh, h1, h2, h3, h4, h5, h6, h7, h8]
    rw [hesc, show scanStr acc (c :: rest) = scanStrM .top acc (c :: rest) from rfl,
      scanStrM_top_cons, if_neg h1, if_neg h2]
    rfl

theorem scanStr_flatMap (cs : List Char) : ∀ (acc rest : List Char),
    scanStr acc (cs.flatMap escapeCh ++ '"' :: rest)
      = some (String.mk (acc.reverse ++ cs), rest) := by
  induction cs with
  | nil =>
      intro acc rest
      show scanStrM .top acc ('"' :: rest) = some (String.mk (acc.reverse ++ []), rest)
      rw [List.append_nil]
      rfl
  | cons c t ih =>
      intro acc rest
      rw [List.flatMap_cons, List.append_assoc, scanStr_escape, ih]
      simp

theorem scanStr_dumpsStr (s : String) (rest : List Char) :
    scanStr [] (s.data.flatMap escapeCh ++ '"' :: rest) = some (s, rest) := by
  rw [scanStr_flatMap]
  simp

/-! ## Lemmas: whitespace and scanner stepping -/

theorem skipJsonWs_cons_not {c : Char} (r : List Char) (h : isJsonWs c = false) :
    skipJsonWs (c :: r) = c :: r := by
  simp [skipJsonWs, h]

theorem skipJsonWs_space (s : List Char) : skipJsonWs (' ' :: s) = skipJsonWs s := by
  simp [skipJsonWs, isJsonWs]

theorem scanVal_succ_congr (f : Nat) (s t : List Char) (h : skipJsonWs s = skipJsonWs t) :
    scanVal (f + 1) s = scanVal (f + 1) t := by
  conv_lhs => rw [scanVal]
  conv_rhs => rw [scanVal]
  rw [h]

theorem scanVal_space (f : Nat) (s : List Char) : scanVal f (' ' :: s) = scanVal f s := by
  cases f with
  | zero => rfl
  | succ f => exact scanVal_succ_congr f _ _ (skipJsonWs_space s)

theorem scanElems_succ (f : Nat) (s : List Char) :
    scanElems (f + 1) s = (scanVal f s).bind (fun p =>
      match skipJsonWs p.2 with
      | ',' :: r2 => (scanElems f r2).map (fun q => (p.1 :: q.1, q.2))
      | ']' :: r2 => some ([p.1], r2)
      | _ => none) := rfl

theorem scanElems_space (f : Nat) (s : List Char) :
    scanElems f (' ' :: s) = scanElems f s := by
  cases f with
  | zero => rfl
  | succ f =>
      rw [scanElems_succ, scanElems_succ, scanVal_space]

theorem scanMembers_succ_congr (f : Nat) (s t : List Char) (h : skipJsonWs s = skipJsonWs t) :
    scanMembers (f + 1) s = scanMembers (f + 1) t := by
  conv_lhs => rw [scanMembers]
  conv_rhs => rw [scanMembers]
  rw [h]

theorem scanMembers_space (f : Nat) (s : List Char) :
    scanMembers f (' ' :: s) = scanMembers f s := by
  cases f with
  | zero => rfl
  | succ f => exact scanMembers_succ_congr f _ _ (skipJsonWs_space s)

theorem scanVal_null (f : Nat) (r : List Char) :
    scanVal (f + 1) ('n' :: 'u' :: 'l' :: 'l' :: r) = some (.null, r) := rfl

theorem scanVal_true (f : Nat) (r : List Char) :
    scanVal (f + 1) ('t' :: 'r' :: 'u' :: 'e' :: r) = some (.bool true, r) := rfl

theorem scanVal_false (f : Nat) (r : List Char) :
    scanVal (f + 1) ('f' :: 'a' :: 'l' :: 's' :: 'e' :: r) = some (.bool false, r) := rfl

theorem scanVal_quote (f : Nat) (r : List Char) :
    scanVal (f + 1) ('"' :: r) = (scanStr [] r).map (fun p => (.str p.1, p.2)) := rfl

theorem scanVal_lbrack (f : Nat) (r : List Char) :
    scanVal (f + 1) ('[' :: r)
      = (match skipJsonWs r with
         | [] => none
         | c2 :: r2 =>
             if c2 = ']' then some (.arr [], r2)
             else (scanElems f (c2 :: r2)).map (fun p => (.arr p.1, p.2))) := rfl

theorem scanVal_lbrace (f : Nat) (r : List Char) :
    scanVal (f + 1) (lbrace :: r)
      = (match skipJsonWs r with
         | [] => none
         | c2 :: r2 =>
             if c2 = rbrace then some (.obj [], r2)
             else (scanMembers f (c2 :: r2)).map (fun p => (.obj p.1, p.2))) := rfl

theorem scanMembers_succ (f : Nat) (s : List Char) :
    scanMembers (f + 1) s
      = (match skipJsonWs s with
         | '"' :: r =>
             (scanStr [] r).bind (fun pk =>
               match skipJsonWs pk.2 with
               | ':' :: r2 =>
                   (scanVal f r2).bind (fun pv =>
                     match skipJsonWs pv.2 with
                     | ',' :: r4 => (scanMembers f r4).map (fun q => ((pk.1, pv.1) :: q.1, q.2))
                     | c :: r4 => if c = rbrace then some ([(pk.1, pv.1)], r4) else none
                     | [] => none)
               | _ => none)
         | _ => none) := rfl

theorem digitCh_cases (c : Char) (h : isDigitCh c = true) :
    c = '0' ∨ c = '1' ∨ c = '2' ∨ c = '3' ∨ c = '4'
      ∨ c = '5' ∨ c = '6' ∨ c = '7' ∨ c = '8' ∨ c = '9' := by
  have hb : 48 ≤ c.toNat ∧ c.toNat ≤ 57 := by
    simpa [isDigitCh] using h
  have hv := Char.ofNat_toNat c
  have hn : c.toNat = 48 ∨ c.toNat = 49 ∨ c.toNat = 50 ∨ c.toNat = 51 ∨ c.toNat = 52
      ∨ c.toNat = 53 ∨ c.toNat = 54 ∨ c.toNat = 55 ∨ c.toNat = 56 ∨ c.toNat = 57 := by
    omega
  rcases hn with h0 | h0 | h0 | h0 | h0 | h0 | h0 | h0 | h0 | h0 <;>
    rw [h0] at hv <;> simp [← hv]

theorem scanVal_int_head (f : Nat) (c : Char) (r : List Char)
    (h : c = '-' ∨ isDigitCh c = true) :
    scanVal (f + 1) (c :: r) = scanInt (c :: r) := by
  rcases h with rfl | hd
  · rfl
  · rcases digitCh_cases c hd with rfl | rfl | rfl | rfl | rfl | rfl | rfl | rfl | rfl | rfl <;> rfl

theorem digit_not_special (c : Char) (h : isDigitCh c = true) :
    isJsonWs c = false ∧ c ≠ ']' ∧ c ≠ rbrace := by
  rcases digitCh_cases c h with rfl | rfl | rfl | rfl | rfl | rfl | rfl | rfl | rfl | rfl <;>
    decide

theorem dumps_head (v : Json) :
    ∃ c t, dumps v = c :: t ∧ isJsonWs c = false ∧ c ≠ ']' ∧ c ≠ rbrace := by
  cases v with
  | null => exact ⟨'n', _, rfl, by decide⟩
  | bool b => cases b with
      | true => exact ⟨'t', _, rfl, by decide⟩
      | false => exact ⟨'f', _, rfl, by decide⟩
  | str s => exact ⟨'"', _, rfl, by decide⟩
  | arr l => exact ⟨'[', _, rfl, by decide⟩
  | obj l => exact ⟨lbrace, _, rfl, by decide⟩
  | int i =>
      by_cases hneg : i < 0
      · refine ⟨'-', natChars i.natAbs, ?_, by decide⟩
        show intChars i = '-' :: natChars i.natAbs
        simp [intChars, hneg]
      · obtain ⟨c0, t0, h0⟩ : ∃ c t, natChars i.natAbs = c :: t := by
          cases hn : natChars i.natAbs with
          | nil => exact absurd hn (natChars_ne_nil _)
          | cons c t => exact ⟨c, t, rfl⟩
        have hc0 : isDigitCh c0 = true := natChars_digits i.natAbs c0 (h0 ▸ by simp)
        obtain ⟨hws, hbr, hbc⟩ := digit_not_special c0 hc0
        refine ⟨c0, t0, ?_, hws, hbr, hbc⟩
        show intChars i = c0 :: t0
        simp [intChars, hneg, h0]

/-! ## The `json.dumps` / `json.loads` round trip -/

theorem sepRest_arrSep (l : List Json) (rest : List Char) :
    sepRest (dumpsArrSep l ++ ']' :: rest) := by
  cases l with
  | nil => exact .inr ⟨']', rest, rfl, .inr (.inl rfl)⟩
  | cons w l2 => exact .inr ⟨',', _, rfl, .inl rfl⟩

theorem sepRest_objSep (l : List (String × Json)) (rest : List Char) :
    sepRest (dumpsObjSep l ++ rbrace :: rest) := by
  cases l with
  | nil => exact .inr ⟨rbrace, rest, rfl, .inr (.inr rfl)⟩
  | cons kv l2 =>
      obtain ⟨k2, v2⟩ := kv
      exact .inr ⟨',', _, rfl, .inl rfl⟩

mutual

theorem rt_val : ∀ (v : Json) (fuel : Nat) (rest : List Char),
    (dumps v).length < fuel → sepRest rest →
    scanVal fuel (dumps v ++ rest) = some (v, rest)
  | v, 0, rest, hf, _ => absurd hf (Nat.not_lt_zero _)
  | .null, fuel + 1, rest, _, _ => scanVal_null fuel rest
  | .bool true, fuel + 1, rest, _, _ => scanVal_true fuel rest
  | .bool false, fuel + 1, rest, _, _ => scanVal_false fuel rest
  | .int i, fuel + 1, rest, _, hsep => by
      by_cases hneg : i < 0
      · have harg : dumps (.int i) ++ rest = '-' :: (natChars i.natAbs ++ rest) := by
          show intChars i ++ rest = _
          simp [intChars, hneg]
        rw [harg, scanVal_int_head fuel _ _ (Or.inl rfl), ← harg]
        exact scanInt_intChars i rest hsep
      · obtain ⟨c0, t0, h0⟩ : ∃ c t, natChars i.natAbs = c :: t := by
          cases hn : natChars i.natAbs with
          | nil => exact absurd hn (natChars_ne_nil _)
          | cons c t => exact ⟨c, t, rfl⟩
        have hc0 : isDigitCh c0 = true := natChars_digits i.natAbs c0 (h0 ▸ by simp)
        have harg : dumps (.int i) ++ rest = c0 :: (t0 ++ rest) := by
          show intChars i ++ rest = _
          simp [intChars, hneg, h0]
        rw [harg, scanVal_int_head fuel _ _ (Or.inr hc0), ← harg]
        exact scanInt_intChars i rest hsep
  | .str s, fuel + 1, rest, _, _ => by
      have harg : dumps (.str s) ++ rest = '"' :: (s.data.flatMap escapeCh ++ '"' :: rest) := by
        show dumpsStr s ++ rest = _
        simp [dumpsStr]
      rw [harg, scanVal_quote, scanStr_dumpsStr]
      rfl
  | .arr [], fuel + 1, rest, _, _ => rfl
  | .arr (v :: l), fuel + 1, rest, hf, _ => by
      obtain ⟨c, t, hd, hws, hbr, _⟩ := dumps_head v
      have harg : dumps (.arr (v :: l)) ++ rest
          = '[' :: (dumps v ++ (dumpsArrSep l ++ ']' :: rest)) := by
        show ('[' :: (dumpsArr (v :: l) ++ [']'])) ++ rest = _
        simp [dumpsArr]
      rw [harg, scanVal_lbrack]
      have hx : dumps v ++ (dumpsArrSep l ++ ']' :: rest)
          = c :: (t ++ (dumpsArrSep l ++ ']' :: rest)) := by
        rw [hd]
        rfl
      rw [hx, skipJsonWs_cons_not _ hws]
      show (if c = ']' then some (Json.arr [], t ++ (dumpsArrSep l ++ ']' :: rest))
            else (scanElems fuel (c :: (t ++ (dumpsArrSep l ++ ']' :: rest)))).map
              (fun p => (Json.arr p.1, p.2))) = some (Json.arr (v :: l), rest)
      rw [if_neg hbr, ← hx]
      have hlen : (dumps v ++ dumpsArrSep l).length + 1 < fuel := by
        have hsz : (dumps (.arr (v :: l))).length
            = (dumps v ++ dumpsArrSep l).length + 2 := by
          show ('[' :: (dumpsArr (v :: l) ++ [']'])).length = _
          simp [dumpsArr]
          omega
        omega
      rw [rt_elems v l fuel rest hlen]
      rfl
  | .obj [], fuel + 1, rest, _, _ => rfl
  | .obj ((k, v) :: l), fuel + 1, rest, hf, _ => by
      have harg : dumps (.obj ((k, v) :: l)) ++ rest
          = lbrace :: (dumpsStr k ++ (':' :: ' ' :: (dumps v ++ (dumpsObjSep l ++ rbrace :: rest)))) := by
        show (lbrace :: (dumpsObj ((k, v) :: l) ++ [rbrace])) ++ rest = _
        simp [dumpsObj]
      rw [harg, scanVal_lbrace]
      have hY : dumpsStr k ++ (':' :: ' ' :: (dumps v ++ (dumpsObjSep l ++ rbrace :: rest)))
          = '"' :: (k.data.flatMap escapeCh
              ++ ('"' :: (':' :: ' ' :: (dumps v ++ (dumpsObjSep l ++ rbrace :: rest))))) := by
        simp [dumpsStr]
      rw [hY, skipJsonWs_cons_not _ (by decide)]
      show (if ('"' : Char) = rbrace
            then some (Json.obj [], k.data.flatMap escapeCh
              ++ ('"' :: (':' :: ' ' :: (dumps v ++ (dumpsObjSep l ++ rbrace :: rest)))))
            else (scanMembers fuel ('"' :: (k.data.flatMap escapeCh
              ++ ('"' :: (':' :: ' ' :: (dumps v ++ (dumpsObjSep l ++ rbrace :: rest))))))).map
                (fun p => (Json.obj p.1, p.2))) = some (Json.obj ((k, v) :: l), rest)
      rw [if_neg (by decide), ← hY]
      have hlen : (dumpsStr k).length + (dumps v ++ dumpsObjSep l).length + 3 < fuel := by
        have hsz : (dumps (.obj ((k, v) :: l))).length
            = (dumpsStr k).length + (dumps v ++ dumpsObjSep l).length + 4 := by
          show (lbrace :: (dumpsObj ((k, v) :: l) ++ [rbrace])).length = _
          simp [dumpsObj]
          omega
        omega
      rw [rt_members k v l fuel rest hlen]
      rfl
termination_by v _ _ _ _ => sizeOf v * 2
decreasing_by all_goals (simp_wf; omega)

theorem rt_elems : ∀ (v : Json) (l : List Json) (fuel : Nat) (rest : List Char),
    (dumps v ++ dumpsArrSep l).length + 1 < fuel →
    scanElems fuel (dumps v ++ (dumpsArrSep l ++ ']' :: rest)) = some (v :: l, rest)
  | v, l, 0, rest, hf => absurd hf (Nat.not_lt_zero _)
  | v, [], fuel + 1, rest, hf => by
      rw [scanElems_succ]
      have hlenv : (dumps v).length < fuel := by
        simp [List.length_append] at hf
        omega
      rw [rt_val v fuel _ hlenv (sepRest_arrSep [] rest)]
      rfl
  | v, w :: l2, fuel + 1, rest, hf => by
      rw [scanElems_succ]
      have hlenv : (dumps v).length < fuel := by
        simp [List.length_append] at hf
        omega
      rw [rt_val v fuel _ hlenv (sepRest_arrSep (w :: l2) rest)]
      show (scanElems fuel (' ' :: ((dumps w ++ dumpsArrSep l2) ++ ']' :: rest))).map
          (fun q => (v :: q.1, q.2)) = some (v :: w :: l2, rest)
      rw [scanElems_space, List.append_assoc]
      have hlen2 : (dumps w ++ dumpsArrSep l2).length + 1 < fuel := by
        have hsz : (dumpsArrSep (w :: l2)).length
            = (dumps w ++ dumpsArrSep l2).length + 2 := by
          show (',' :: ' ' :: (dumps w ++ dumpsArrSep l2)).length = _
          simp
        simp [List.length_append] at hf hsz ⊢
        omega
      rw [rt_elems w l2 fuel rest hlen2]
      rfl
termination_by v l _ _ _ => sizeOf v * 2 + sizeOf l * 2 + 1
decreasing_by all_goals (simp_wf; omega)

theorem rt_members : ∀ (k : String) (v : Json) (l : List (String × Json)) (fuel : Nat)
    (rest : List Char),
    (dumpsStr k).length + (dumps v ++ dumpsObjSep l).length + 3 < fuel →
    scanMembers fuel (dumpsStr k ++ (':' :: ' ' :: (dumps v ++ (dumpsObjSep l ++ rbrace :: rest))))
      = some ((k, v) :: l, rest)
  | k, v, l, 0, rest, hf => absurd hf (Nat.not_lt_zero _)
  | k, v, [], fuel + 1, rest, hf => by
      rw [scanMembers_succ]
      have harg : dumpsStr k ++ (':' :: ' ' :: (dumps v ++ (dumpsObjSep [] ++ rbrace :: rest)))
          = '"' :: (k.data.flatMap escapeCh
              ++ ('"' :: (':' :: ' ' :: (dumps v ++ (dumpsObjSep [] ++ rbrace :: rest))))) := by
        simp [dumpsStr]
      rw [harg, skipJsonWs_cons_not _ (by decide)]
      show (scanStr [] (k.data.flatMap escapeCh
              ++ ('"' :: (':' :: ' ' :: (dumps v ++ (dumpsObjSep [] ++ rbrace :: rest)))))).bind
          (fun pk => match skipJsonWs pk.2 with
            | ':' :: r2 =>
                (scanVal fuel r2).bind (fun pv =>
                  match skipJsonWs pv.2 with
                  | ',' :: r4 => (scanMembers fuel r4).map (fun q => ((pk.1, pv.1) :: q.1, q.2))
                  | c :: r4 => if c = rbrace then some ([(pk.1, pv.1)], r4) else none
                  | [] => none)
            | _ => none) = some ([(k, v)], rest)
      rw [scanStr_dumpsStr]
      show (scanVal fuel (' ' :: (dumps v ++ (dumpsObjSep [] ++ rbrace :: rest)))).bind
          (fun pv => match skipJsonWs pv.2 with
            | ',' :: r4 => (scanMembers fuel r4).map (fun q => ((k, pv.1) :: q.1, q.2))
            | c :: r4 => if c = rbrace then some ([(k, pv.1)], r4) else none
            | [] => none) = some ([(k, v)], rest)
      rw [scanVal_space]
      have hlenv : (dumps v).length < fuel := by
        simp [List.length_append] at hf
        omega
      rw [rt_val v fuel _ hlenv (sepRest_objSep [] rest)]
      rfl
  | k, v, (k2, v2) :: l2, fuel + 1, rest, hf => by
      rw [scanMembers_succ]
      have harg : dumpsStr k
            ++ (':' :: ' ' :: (dumps v ++ (dumpsObjSep ((k2, v2) :: l2) ++ rbrace :: rest)))
          = '"' :: (k.data.flatMap escapeCh
              ++ ('"' :: (':' :: ' ' :: (dumps v
                ++ (dumpsObjSep ((k2, v2) :: l2) ++ rbrace :: rest))))) := by
        simp [dumpsStr]
      rw [harg, skipJsonWs_cons_not _ (by decide)]
      show (scanStr [] (k.data.flatMap escapeCh
              ++ ('"' :: (':' :: ' ' :: (dumps v
                ++ (dumpsObjSep ((k2, v2) :: l2) ++ rbrace :: rest)))))).bind
          (fun pk => match skipJsonWs pk.2 with
            | ':' :: r2 =>
                (scanVal fuel r2).bind (fun pv =>
                  match skipJsonWs pv.2 with
                  | ',' :: r4 => (scanMembers fuel r4).map (fun q => ((pk.1, pv.1) :: q.1, q.2))
                  | c :: r4 => if c = rbrace then some ([(pk.1, pv.1)], r4) else none
                  | [] => none)
            | _ => none) = some ((k, v) :: (k2, v2) :: l2, rest)
      rw [scanStr_dumpsStr]
      show (scanVal fuel (' ' :: (dumps v ++ (dumpsObjSep ((k2, v2) :: l2) ++ rbrace :: rest)))).bind
          (fun pv => match skipJsonWs pv.2 with
            | ',' :: r4 => (scanMembers fuel r4).map (fun q => ((k, pv.1) :: q.1, q.2))
            | c :: r4 => if c = rbrace then some ([(k, pv.1)], r4) else none
            | [] => none) = some ((k, v) :: (k2, v2) :: l2, rest)
      rw [scanVal_space]
      have hlenv : (dumps v).length < fuel := by
        simp [List.length_append] at hf
        omega
      rw [rt_val v fuel _ hlenv (sepRest_objSep ((k2, v2) :: l2) rest)]
      show (scanMembers fuel (' ' :: ((dumpsStr k2 ++ ':' :: ' ' :: (dumps v2 ++ dumpsObjSep l2))
          ++ rbrace :: rest))).map
          (fun q => ((k, v) :: q.1, q.2)) = some ((k, v) :: (k2, v2) :: l2, rest)
      rw [scanMembers_space,
        show (dumpsStr k2 ++ ':' :: ' ' :: (dumps v2 ++ dumpsObjSep l2)) ++ rbrace :: rest
          = dumpsStr k2 ++ (':' :: ' ' :: (dumps v2 ++ (dumpsObjSep l2 ++ rbrace :: rest)))
          from by simp]
      have hlen2 : (dumpsStr k2).length + (dumps v2 ++ dumpsObjSep l2).length + 3 < fuel := by
        have hsz : (dumpsObjSep ((k2, v2) :: l2)).length
            = (dumpsStr k2).length + (dumps v2 ++ dumpsObjSep l2).length + 4 := by
          show (',' :: ' ' :: (dumpsStr k2 ++ ':' :: ' ' :: (dumps v2 ++ dumpsObjSep l2))).length = _
          simp
          omega
        simp [List.length_append] at hf hsz ⊢
        omega
      rw [rt_members k2 v2 l2 fuel rest hlen2]
      rfl
termination_by _ v l _ _ _ => sizeOf v * 2 + sizeOf l * 2 + 1
decreasing_by all_goals (simp_wf; omega)

end

/-- The whole-document round trip: `json.loads (json.dumps v)` recovers `v`. -/
theorem loads_dumps (v : Json) : loads (dumps v) = some v := by
  have h := rt_val v ((dumps v).length + 1) [] (by omega) (.inl rfl)
  rw [List.append_nil] at h
  unfold loads
  rw [h]
  rfl

/-! ## Lemmas: `dumps` output is ASCII, and UTF-8 framing round-trips -/

theorem hexCh_ascii (d : Nat) (h : d < 16) : (hexCh d).toNat < 128 := by
  interval_cases d <;> decide

theorem hex4Chars_ascii (n : Nat) : ∀ x ∈ hex4Chars n, x.toNat < 128 := by
  intro x hx
  simp [hex4Chars] at hx
  rcases hx with rfl | rfl | rfl | rfl <;>
    exact hexCh_ascii _ (Nat.mod_lt _ (by omega))

theorem escapeCh_ascii (c : Char) : ∀ x ∈ escapeCh c, x.toNat < 128 := by
  intro x hx
  unfold escapeCh at hx
  split at hx
  · simp at hx; rcases hx with rfl | rfl <;> decide
  · split at hx
    · simp at hx; subst hx; decide
    · split at hx
      · simp at hx; rcases hx with rfl | rfl <;> decide
      · split at hx
        · simp at hx; rcases hx with rfl | rfl <;> decide
        · split at hx
          · simp at hx; rcases hx with rfl | rfl <;> decide
          · split at hx
            · simp at hx; rcases hx with rfl | rfl <;> decide
            · split at hx
              · simp at hx; rcases hx with rfl | rfl <;> decide
              · split at hx
                · split at hx
                  · simp at hx
                    rcases hx with rfl | rfl | hx
                    · decide
                    · decide
                    · exact hex4Chars_ascii _ x hx
                  · simp at hx
                    rcases hx with rfl | rfl | hx | rfl | rfl | hx
                    · decide
                    · decide
                    · exact hex4Chars_ascii _ x hx
                    · decide
                    · decide
                    · exact hex4Chars_ascii _ x hx
                · rename_i hrange
                  simp at hx
                  subst hx
                  omega

theorem intChars_ascii (i : Int) : ∀ x ∈ intChars i, x.toNat < 128 := by
  intro x hx
  simp [intChars] at hx
  rcases hx with ⟨hneg, rfl⟩ | hx
  · decide
  · have := natChars_digits i.natAbs x hx
    simp [isDigitCh] at this
    omega

theorem dumpsStr_ascii_of (s : String) (x : Char)
    (hx : x ∈ dumpsStr s) : x.toNat < 128 := by
  simp [dumpsStr] at hx
  rcases hx with rfl | hx | rfl
  · decide
  · obtain ⟨c, _, hc⟩ := hx
    exact escapeCh_ascii c x hc
  · decide

mutual

theorem dumps_ascii : ∀ (v : Json), ∀ x ∈ dumps v, x.toNat < 128
  | .null, x, hx => by
      have hx2 : x ∈ ['n', 'u', 'l', 'l'] := hx
      simp at hx2
      rcases hx2 with rfl | rfl | rfl <;> decide
  | .bool true, x, hx => by
      have hx2 : x ∈ ['t', 'r', 'u', 'e'] := hx
      simp at hx2
      rcases hx2 with rfl | rfl | rfl | rfl <;> decide
  | .bool false, x, hx => by
      have hx2 : x ∈ ['f', 'a', 'l', 's', 'e'] := hx
      simp at hx2
      rcases hx2 with rfl | rfl | rfl | rfl | rfl <;> decide
  | .int i, x, hx => intChars_ascii i x hx
  | .str s, x, hx => dumpsStr_ascii_of s x hx
  | .arr l, x, hx => by
      have hx2 : x ∈ '[' :: (dumpsArr l ++ [']']) := hx
      simp at hx2
      rcases hx2 with rfl | hx2 | rfl
      · decide
      · exact dumpsArr_ascii l x hx2
      · decide
  | .obj l, x, hx => by
      have hx2 : x ∈ lbrace :: (dumpsObj l ++ [rbrace]) := hx
      simp at hx2
      rcases hx2 with rfl | hx2 | rfl
      · decide
      · exact dumpsObj_ascii l x hx2
      · decide
termination_by v _ _ => sizeOf v * 2
decreasing_by all_goals (simp_wf; try omega)

theorem dumpsArr_ascii : ∀ (l : List Json), ∀ x ∈ dumpsArr l, x.toNat < 128
  | [], x, hx => by simp [dumpsArr] at hx
  | v :: rest, x, hx => by
      have hx2 : x ∈ dumps v ++ dumpsArrSep rest := hx
      rcases List.mem_append.mp hx2 with h | h
      · exact dumps_ascii v x h
      · exact dumpsArrSep_ascii rest x h
termination_by l _ _ => sizeOf l * 2
decreasing_by all_goals (simp_wf; try omega)

theorem dumpsArrSep_ascii : ∀ (l : List Json), ∀ x ∈ dumpsArrSep l, x.toNat < 128
  | [], x, hx => by simp [dumpsArrSep] at hx
  | v :: rest, x, hx => by
      have hx2 : x ∈ ',' :: ' ' :: (dumps v ++ dumpsArrSep rest) := hx
      simp at hx2
      rcases hx2 with rfl | rfl | h | h
      · decide
      · decide
      · exact dumps_ascii v x h
      · exact dumpsArrSep_ascii rest x h
termination_by l _ _ => sizeOf l * 2 + 1
decreasing_by all_goals (simp_wf; try omega)

theorem dumpsObj_ascii : ∀ (l : List (String × Json)), ∀ x ∈ dumpsObj l, x.toNat < 128
  | [], x, hx => by simp [dumpsObj] at hx
  | (k, v) :: rest, x, hx => by
      have hx2 : x ∈ dumpsStr k ++ ':' :: ' ' :: (dumps v ++ dumpsObjSep rest) := hx
      simp at hx2
      rcases hx2 with h | rfl | rfl | h | h
      · exact dumpsStr_ascii_of k x h
      · decide
      · decide
      · exact dumps_ascii v x h
      · exact dumpsObjSep_ascii rest x h
termination_by l _ _ => sizeOf l * 2
decreasing_by all_goals (simp_wf; try omega)

theorem dumpsObjSep_ascii : ∀ (l : List (String × Json)), ∀ x ∈ dumpsObjSep l, x.toNat < 128
  | [], x, hx => by simp [dumpsObjSep] at hx
  | (k, v) :: rest, x, hx => by
      have hx2 : x ∈ ',' :: ' ' :: (dumpsStr k ++ ':' :: ' ' :: (dumps v ++ dumpsObjSep rest)) := hx
      simp at hx2
      rcases hx2 with rfl | rfl | h | rfl | rfl | h | h
      · decide
      · decide
      · exact dumpsStr_ascii_of k x h
      · decide
      · decide
      · exact dumps_ascii v x h
      · exact dumpsObjSep_ascii rest x h
termination_by l _ _ => sizeOf l * 2 + 1
decreasing_by all_goals (simp_wf; try omega)

end

theorem utf8Ch_ascii (c : Char) (h : c.toNat < 128) : utf8Ch c = [c.toNat] := by
  simp [utf8Ch, h]

theorem utf8Decode_ascii_cons (b : Nat) (rest : List Nat) (h : b < 128) :
    utf8Decode (b :: rest) = (utf8Decode rest).map (fun cs => Char.ofNat b :: cs) := by
  show (if b < 128 then (utf8DecM .top rest).map (fun cs => Char.ofNat b :: cs)
        else if b < 194 then none
        else if b < 224 then utf8DecM (.need 1 (b - 192) 128) rest
        else if b < 240 then utf8DecM (.need 2 (b - 224) 2048) rest
        else if b < 245 then utf8DecM (.need 3 (b - 240) 65536) rest
        else none)
      = (utf8DecM .top rest).map (fun cs => Char.ofNat b :: cs)
  rw [if_pos h]

theorem utf8_ascii_roundtrip (l : List Char) (h : ∀ c ∈ l, c.toNat < 128) :
    utf8Decode (l.flatMap utf8Ch) = some l := by
  induction l with
  | nil => rfl
  | cons c t ih =>
      have hc : c.toNat < 128 := h c (by simp)
      have harg : (c :: t).flatMap utf8Ch = c.toNat :: t.flatMap utf8Ch := by
        rw [List.flatMap_cons, utf8Ch_ascii c hc]
        rfl
      rw [harg]
      have hrec := ih (fun x hx => h x (by simp [hx]))
      rw [utf8Decode_ascii_cons _ _ hc, hrec, Char.ofNat_toNat]
      rfl

theorem packLE4_length (n : Nat) : (packLE4 n).length = 4 := rfl

theorem unpack_pack (n : Nat) (h : n < 4294967296) : unpackLE4 (packLE4 n) = n := by
  simp [packLE4, unpackLE4]
  omega

/-- Framing round trip at the byte level: a `write_message` frame followed by
any further bytes reads back as exactly the framed text. -/
theorem read_message_frame (t : String) (rest : List Nat)
    (hascii : ∀ c ∈ t.data, c.toNat < 128)
    (hlen : (utf8Encode t).length < 4294967296) :
    read_message (mkFrame t ++ rest) = some (some t) := by
  have hstack : mkFrame t ++ rest = packLE4 (utf8Encode t).length ++ (utf8Encode t ++ rest) := by
    simp [mkFrame]
  rw [hstack]
  have hlen4 : (packLE4 (utf8Encode t).length ++ (utf8Encode t ++ rest)).length ≥ 4 := by
    simp [packLE4]
  rw [read_message, if_neg (by omega)]
  have htake : (packLE4 (utf8Encode t).length ++ (utf8Encode t ++ rest)).take 4
      = packLE4 (utf8Encode t).length := by
    rw [show (4 : Nat) = (packLE4 (utf8Encode t).length).length from rfl]
    exact List.take_left _ _
  have hdrop : (packLE4 (utf8Encode t).length ++ (utf8Encode t ++ rest)).drop 4
      = utf8Encode t ++ rest := by
    rw [show (4 : Nat) = (packLE4 (utf8Encode t).length).length from rfl]
    exact List.drop_left _ _
  rw [htake, hdrop, unpack_pack _ hlen]
  have htake2 : (utf8Encode t ++ rest).take (utf8Encode t).length = utf8Encode t :=
    List.take_left _ _
  have hdec : utf8Decode (utf8Encode t) = some t.data := utf8_ascii_roundtrip t.data hascii
  simp only [htake2, hdec]

/-! ## The claims -/

/-- C1 (counterexample): with `pycdxml` importable but parse-failing and
`cdx_mol` fully working, the chain the spec describes succeeds through the
second provider, while the code reports the first provider's parse failure
and never tries the second. -/
theorem parse_failure_not_retried_cex :
    claimChain envBothProviders "x" = some [65, 66, 67]
    ∧ (cdxml_to_cdx_bytes envBothProviders [] "x").1
        = (none, some "CDXML parse failed") :=
  ⟨rfl, rfl⟩

/-- C1 (amended): the provider order applies to importability only.  When no
provider is importable the conversion fails with the install message; when
`pycdxml` is importable the result never depends on `cdx_mol`; when `pycdxml`
is not importable the chain behaves as if `cdx_mol` were the first provider.
A parse or serialization failure of the selected provider fails the whole
conversion instead of moving to the next provider. -/
theorem conversion_no_midchain_fallback (env : ConvEnv) (fs : FS) (cdxml : String) :
    (importChain env = none →
        cdxml_to_cdx_bytes env fs cdxml
          = ((none, some "Install cdx-mol: pip install cdx-mol"), fs, []))
    ∧ (∀ m, env.pycdxml = some m →
        cdxml_to_cdx_bytes env fs cdxml
          = cdxml_to_cdx_bytes ⟨some m, none, env.tmpName, env.tmpCreateOk, env.tmpWriteOk⟩ fs cdxml)
    ∧ (env.pycdxml = none →
        cdxml_to_cdx_bytes env fs cdxml
          = cdxml_to_cdx_bytes ⟨none, env.cdx_mol, env.tmpName, env.tmpCreateOk, env.tmpWriteOk⟩ fs cdxml) := by
  refine ⟨fun h => by rw [cdxml_to_cdx_bytes, h], fun m hm => ?_, fun h => ?_⟩
  · rw [cdxml_to_cdx_bytes, show importChain env = some m from by rw [importChain, hm]]
    rfl
  · rw [cdxml_to_cdx_bytes, show importChain env = env.cdx_mol from by rw [importChain, h]]
    rfl

/-- C2 (counterexample): a provider serializing to the empty base64 text makes
the conversion return empty bytes as a success, and the host delivers the
empty payload to the clipboard and reports success. -/
theorem empty_payload_success_cex :
    (cdxml_to_cdx_bytes envEmptyB64 [] "x").1 = (some [], none)
    ∧ (handleRequest hostOk (.obj [("cdxml", .str "x")]) []).1 = [successMsg]
    ∧ Effect.clipSetBytes 777 [] ∈ (handleRequest hostOk (.obj [("cdxml", .str "x")]) []).2.1 :=
  ⟨rfl, rfl, by decide⟩

/-- C2 (amended): the conversion's result pair is exactly one of bytes or a
failure reason — never both, never neither — but the byte payload may be
empty, and an empty payload is treated as a success. -/
theorem conversion_result_exactly_one (env : ConvEnv) (fs : FS) (cdxml : String) :
    Xor' ((cdxml_to_cdx_bytes env fs cdxml).1.1 = none)
      ((cdxml_to_cdx_bytes env fs cdxml).1.2 = none) := by
  rw [cdxml_to_cdx_bytes]
  cases importChain env with
  | none => simp [Xor']
  | some m =>
      by_cases hc : env.tmpCreateOk
      · simp only [hc, not_true, if_false]
        by_cases hw : env.tmpWriteOk
        · simp only [hw, not_true, if_false]
          cases runModule m cdxml <;> simp [Xor']
        · simp [hw, Xor']
      · simp [hc, Xor']

/-- C6: on a non-target platform the host answers only the Windows-only
failure, leaves the filesystem unchanged, and performs no filesystem or
clipboard effects. -/
theorem nonwindows_platform_guard (env : HostEnv) (fs : FS)
    (h : env.platform ≠ "win32") :
    hostMain env fs = ([mkErr "Windows only"], [], fs) := by
  rw [hostMain, if_pos h]

/-- C6 witness at a macOS host. -/
theorem nonwindows_platform_guard_witness :
    hostMain darwinHost [] = ([mkErr "Windows only"], [], []) :=
  nonwindows_platform_guard darwinHost [] (by decide)

/-- C8: once the clipboard is acquired, both the host delivery block and the
standalone script release the handle on every exit path, and a success report
implies every write inside the transaction succeeded. -/
theorem clipboard_release_and_atomicity (clip : ClipEnv) (b : List Nat) (cdxml : String) :
    (clip.openResult = .ok () →
        Effect.clipClose ∈ (deliverToClipboard clip b cdxml).2
        ∧ ((deliverToClipboard clip b cdxml).1 = successMsg
            → clip.emptyResult = .ok () ∧ clip.setCdxResult = .ok ()
              ∧ (cdxml.data ≠ [] → clip.setTextResult = .ok ())))
    ∧ (clip.openResult = .ok () →
        Effect.clipClose ∈ (scriptPutOnClipboard clip b).2
        ∧ ((scriptPutOnClipboard clip b).1 = .ok ()
            → clip.emptyResult = .ok () ∧ clip.setCdxResult = .ok ())) := by
  constructor
  · intro hopen
    cases he : clip.emptyResult with
    | error e =>
        simp only [deliverToClipboard, hopen, he]
        exact ⟨by simp, fun hmsg => by simp [mkErr, successMsg] at hmsg⟩
    | ok u =>
        cases u
        cases hs : clip.setCdxResult with
        | error e =>
            simp only [deliverToClipboard, hopen, he, hs]
            exact ⟨by simp, fun hmsg => by simp [mkErr, successMsg] at hmsg⟩
        | ok u2 =>
            cases u2
            by_cases htext : cdxml.data = []
            · simp only [deliverToClipboard, hopen, he, hs, htext]
              exact ⟨by simp, fun _ => by simp [htext]⟩
            · cases hst : clip.setTextResult with
              | error e =>
                  simp only [deliverToClipboard, hopen, he, hs, if_pos htext, hst]
                  exact ⟨by simp, fun hmsg => by simp [mkErr, successMsg] at hmsg⟩
              | ok u3 =>
                  cases u3
                  simp only [deliverToClipboard, hopen, he, hs, if_pos htext, hst]
                  exact ⟨by simp, fun _ => by simp⟩
  · intro hopen
    cases he : clip.emptyResult with
    | error e =>
        simp only [scriptPutOnClipboard, hopen, he]
        exact ⟨by simp, fun hmsg => by simp at hmsg⟩
    | ok u =>
        cases u
        cases hs : clip.setCdxResult with
        | error e =>
            simp only [scriptPutOnClipboard, hopen, he, hs]
            exact ⟨by simp, fun hmsg => by simp at hmsg⟩
        | ok u2 =>
            cases u2
            simp only [scriptPutOnClipboard, hopen, he, hs]
            exact ⟨by simp, fun _ => by simp⟩

/-- C9 (counterexample): when the write into the staged temporary file raises,
`tmp_path` was never assigned, the `finally` block unlinks nothing, and the
file is still on the filesystem after the attempt — in both the native host
and the API conversion. -/
theorem tempfile_leak_on_write_failure_cex :
    (cdxml_to_cdx_bytes envWriteFails [] "x").2.1 = ["tmpA"]
    ∧ (convert_cdxml_to_cdx envWriteFails [] "x").2.1 = ["tmpA"] :=
  ⟨rfl, rfl⟩

/-- C9 (amended): when the temporary file is created and the markup write into
it succeeds, the staged file is gone after the attempt on every path (provider
success and provider failure alike); but when the write raises, the staged
file leaks. -/
theorem tempfile_cleanup_after_write (env : ConvEnv) (fs : FS) (cdxml : String)
    (m : Module) (him : importChain env = some m) (hc : env.tmpCreateOk = true) :
    (env.tmpWriteOk = true →
        env.tmpName ∉ (cdxml_to_cdx_bytes env fs cdxml).2.1
        ∧ env.tmpName ∉ (convert_cdxml_to_cdx env fs cdxml).2.1)
    ∧ (env.tmpWriteOk = false →
        env.tmpName ∈ (cdxml_to_cdx_bytes env fs cdxml).2.1
        ∧ env.tmpName ∈ (convert_cdxml_to_cdx env fs cdxml).2.1) := by
  constructor
  · intro hw
    constructor
    · rw [cdxml_to_cdx_bytes, him]
      simp only [hc, hw, not_true, if_false]
      cases runModule m cdxml <;> simp
    · rw [convert_cdxml_to_cdx, him]
      simp [hc, hw]
  · intro hw
    constructor
    · rw [cdxml_to_cdx_bytes, him]
      simp [hc, hw]
    · rw [convert_cdxml_to_cdx, him]
      simp [hc, hw]

/-- C9 witness: a clean run of the working provider leaves no staged file. -/
theorem tempfile_cleanup_after_write_witness :
    (true = true →
        "tmpA" ∉ (cdxml_to_cdx_bytes envConvOk [] "x").2.1
        ∧ "tmpA" ∉ (convert_cdxml_to_cdx envConvOk [] "x").2.1)
    ∧ (true = false →
        "tmpA" ∈ (cdxml_to_cdx_bytes envConvOk [] "x").2.1
        ∧ "tmpA" ∈ (convert_cdxml_to_cdx envConvOk [] "x").2.1) :=
  tempfile_cleanup_after_write envConvOk [] "x" okModule rfl rfl

/-- C10: a well-formed frame with zero-length body reads back as the empty
string, and the host answers the same "No input" failure it gives when stdin
carries no message at all, rather than a JSON parse error. -/
theorem zero_length_frame_no_input (env : HostEnv) (fs : FS)
    (hplat : env.platform = "win32") (hstdin : env.stdin = mkFrame "") :
    read_message env.stdin = some (some "")
    ∧ hostMain env fs = ([mkErr "No input"], [], fs)
    ∧ hostMain env fs
        = hostMain ⟨env.platform, [], env.win32, env.conv, env.clip⟩ fs := by
  have hread : read_message (mkFrame "") = some (some "") := rfl
  have hmain : hostMain env fs = ([mkErr "No input"], [], fs) := by
    rw [hostMain, if_neg (by simp [hplat]), hstdin, hread]
    rfl
  refine ⟨hstdin ▸ hread, hmain, ?_⟩
  rw [hmain, hostMain]
  rw [if_neg (by simp [hplat])]
  rfl

/-- C10 witness at a concrete zero-length-frame host. -/
theorem zero_length_frame_no_input_witness :
    read_message zeroFrameHost.stdin = some (some "")
    ∧ hostMain zeroFrameHost [] = ([mkErr "No input"], [], [])
    ∧ hostMain zeroFrameHost []
        = hostMain ⟨zeroFrameHost.platform, [], zeroFrameHost.win32,
            zeroFrameHost.conv, zeroFrameHost.clip⟩ [] :=
  zero_length_frame_no_input zeroFrameHost [] rfl rfl

/-- C3 (counterexample): a request whose markup strips to empty but which
carries a decodable blob is answered with success, not with the missing-field
validation failure. -/
theorem empty_markup_with_blob_success_cex :
    (pyStrip "   ").data = []
    ∧ (handleRequest hostOk wsMarkupDoc []).1 = [successMsg] :=
  ⟨rfl, rfl⟩

/-- C3 (amended): an empty-after-trimming markup field yields the
missing-field validation failure only when no truthy pre-encoded blob
accompanies it; with a truthy string blob the host instead proceeds to decode
the blob and deliver it. -/
theorem empty_markup_validation_guard (env : HostEnv) (data : Json) (fs : FS)
    (s : String) (bl : Json)
    (hex : extractFields data = .ok (s, bl)) (hs : s.data = []) :
    (¬ truthy bl →
        handleRequest env data fs = ([mkErr "Missing cdxml or cdx field"], [], fs))
    ∧ (truthy bl → env.win32 = true → ∀ bs, bl = .str bs →
        handleRequest env data fs
          = match b64decode bs with
            | .ok b =>
                ([(deliverToClipboard env.clip b s).1],
                 (deliverToClipboard env.clip b s).2, fs)
            | .error _ =>
                ([mkErr "Could not get CDX. Install cdx-mol: pip install cdx-mol"],
                 [], fs)) := by
  constructor
  · intro hnb
    simp only [handleRequest, hex]
    rw [if_pos ⟨hs, hnb⟩]
  · intro ht hw bs hbl
    subst hbl
    simp only [handleRequest, hex]
    rw [if_neg (by simp [ht]), if_neg (by simp [hw]), if_neg (by simp [hs])]
    simp only [ht, if_true]
    cases hb : b64decode bs <;> simp [hb]

/-- C3 witness: the guard instantiated at the whitespace-markup document. -/
theorem empty_markup_validation_guard_witness :
    (¬ truthy (.str "QUJD") →
        handleRequest hostOk wsMarkupDoc [] = ([mkErr "Missing cdxml or cdx field"], [], []))
    ∧ (truthy (.str "QUJD") → hostOk.win32 = true → ∀ bs, Json.str "QUJD" = .str bs →
        handleRequest hostOk wsMarkupDoc []
          = match b64decode bs with
            | .ok b =>
                ([(deliverToClipboard hostOk.clip b "").1],
                 (deliverToClipboard hostOk.clip b "").2, [])
            | .error _ =>
                ([mkErr "Could not get CDX. Install cdx-mol: pip install cdx-mol"],
                 [], [])) :=
  empty_markup_validation_guard hostOk wsMarkupDoc [] "" (.str "QUJD") rfl rfl

/-- C4 (counterexample): the blob `"A"` is invalid base64 — decoding raises —
yet the host's answer is the generic could-not-get-CDX failure, both when the
conversion was skipped (no markup) and when the markup conversion failed; it
is the very same answer produced when a conversion fails with no blob at all,
so the decode error is swallowed, not surfaced. -/
theorem invalid_blob_swallowed_cex :
    b64decode "A" = .error "Invalid base64-encoded string: number of data characters cannot be 1 more than a multiple of 4"
    ∧ (handleRequest hostOk badBlobDoc []).1
        = [mkErr "Could not get CDX. Install cdx-mol: pip install cdx-mol"]
    ∧ (cdxml_to_cdx_bytes envBothProviders [] "x").1
        = (none, some "CDXML parse failed")
    ∧ (handleRequest hostParseFail convFailBlobDoc []).1
        = [mkErr "Could not get CDX. Install cdx-mol: pip install cdx-mol"]
    ∧ (handleRequest hostParseFail (.obj [("cdxml", .str "x")]) []).1
        = [mkErr "Could not get CDX. Install cdx-mol: pip install cdx-mol"] :=
  ⟨rfl, rfl, rfl, rfl, rfl⟩

/-- C4 (amended): when the conversion step was skipped (empty markup) or the
conversion failed, and the supplied string blob fails base64 decoding, the
exception is suppressed (`except Exception: pass`) and the host reports only
the generic could-not-get-CDX failure, not a decode failure. -/
theorem invalid_blob_generic_failure (env : HostEnv) (data : Json) (fs : FS)
    (s bs err : String)
    (hex : extractFields data = .ok (s, .str bs))
    (ht : truthy (.str bs))
    (hw : env.win32 = true)
    (hdec : b64decode bs = .error err) :
    (s.data = [] →
        handleRequest env data fs
          = ([mkErr "Could not get CDX. Install cdx-mol: pip install cdx-mol"], [], fs))
    ∧ (s.data ≠ [] →
        (cdxml_to_cdx_bytes env.conv fs s).1.1 = none →
        handleRequest env data fs
          = ([mkErr "Could not get CDX. Install cdx-mol: pip install cdx-mol"],
             (cdxml_to_cdx_bytes env.conv fs s).2.2,
             (cdxml_to_cdx_bytes env.conv fs s).2.1)) := by
  constructor
  · intro hs
    simp only [handleRequest, hex]
    rw [if_neg (by simp [ht]), if_neg (by simp [hw]), if_neg (by simp [hs])]
    simp only [ht, if_true, hdec]
  · intro hne hfail
    simp only [handleRequest, hex]
    rw [if_neg (by simp [ht]), if_neg (by simp [hw]), if_pos hne]
    simp only [hfail, ht, if_true, hdec]

/-- C4 witness at the failed-conversion invalid-blob document. -/
theorem invalid_blob_generic_failure_witness :
    (("x" : String).data = [] →
        handleRequest hostParseFail convFailBlobDoc []
          = ([mkErr "Could not get CDX. Install cdx-mol: pip install cdx-mol"], [], []))
    ∧ (("x" : String).data ≠ [] →
        (cdxml_to_cdx_bytes hostParseFail.conv [] "x").1.1 = none →
        handleRequest hostParseFail convFailBlobDoc []
          = ([mkErr "Could not get CDX. Install cdx-mol: pip install cdx-mol"],
             (cdxml_to_cdx_bytes hostParseFail.conv [] "x").2.2,
             (cdxml_to_cdx_bytes hostParseFail.conv [] "x").2.1)) :=
  invalid_blob_generic_failure hostParseFail convFailBlobDoc [] "x" "A"
    "Invalid base64-encoded string: number of data characters cannot be 1 more than a multiple of 4"
    rfl (by decide) rfl rfl

/-- C5: the framing round trip.  For every JSON document whose encoded form
fits the 32-bit length prefix, `write_message` produces a frame, and
`read_message` on that frame (followed by any further bytes) returns text
that parses back to an equal document. -/
theorem framing_roundtrip (o : Json) (rest : List Nat)
    (hlen : (utf8Encode (String.mk (dumps o))).length < 4294967296) :
    ∃ frame, write_message o = some frame
      ∧ ∃ t, read_message (frame ++ rest) = some (some t) ∧ loads t.data = some o := by
  refine ⟨mkFrame (String.mk (dumps o)), ?_, String.mk (dumps o), ?_, loads_dumps o⟩
  · rw [write_message]
    simp only [hlen, if_true]
    rfl
  · exact read_message_frame (String.mk (dumps o)) rest (dumps_ascii o) hlen

/-- C5 witness at the success response document. -/
theorem framing_roundtrip_witness :
    (utf8Encode (String.mk (dumps successMsg))).length < 4294967296
    ∧ ∃ frame, write_message successMsg = some frame
        ∧ ∃ t, read_message (frame ++ []) = some (some t)
            ∧ loads t.data = some successMsg :=
  ⟨by decide, framing_roundtrip successMsg [] (by decide)⟩

/-- C7: a POST whose body decodes and parses as a JSON object with a missing,
empty or whitespace-only `cdxml` field is answered 400 with the
missing-or-empty error body; a body that does not parse is answered 400 with
the invalid-request error instead — the parse check comes first. -/
theorem post_missing_cdxml_400 (env : ConvEnv) (n : Nat) (stream : List Nat)
    (fs : FS) (cs : List Char)
    (hdec : utf8Decode (stream.take n) = some cs) :
    (∀ members s, loads cs = some (.obj members)
        → pyOr (jsonGet members "cdxml") (.str "") = .str s
        → (pyStrip s).data = []
        → do_POST env n stream fs
            = (.resp 400 errHeaders (errBody "Missing or empty cdxml"), fs, []))
    ∧ (loads cs = none
        → do_POST env n stream fs
            = (.resp 400 errHeaders (errBody "Invalid request: Expecting value"), fs, [])) := by
  constructor
  · intro members s hparse hfield hempty
    simp only [do_POST, hdec, hparse, hfield]
    rw [if_pos hempty]
  · intro hparse
    simp only [do_POST, hdec, hparse]

/-- C7 witness at the whitespace-markup HTTP body. -/
theorem post_missing_cdxml_400_witness :
    (∀ members s, loads exampleBody.data = some (.obj members)
        → pyOr (jsonGet members "cdxml") (.str "") = .str s
        → (pyStrip s).data = []
        → do_POST envConvOk (utf8Encode exampleBody).length (utf8Encode exampleBody) []
            = (.resp 400 errHeaders (errBody "Missing or empty cdxml"), [], []))
    ∧ (loads exampleBody.data = none
        → do_POST envConvOk (utf8Encode exampleBody).length (utf8Encode exampleBody) []
            = (.resp 400 errHeaders (errBody "Invalid request: Expecting value"), [], [])) :=
  post_missing_cdxml_400 envConvOk (utf8Encode exampleBody).length
    (utf8Encode exampleBody) [] exampleBody.data (by rw [List.take_length]; decide)

end Glc
